import Mathlib

/-! The package `esfs`, an embeddable static file server.

A shallow embedding of `esfs.go` and `options.go` (package `esfs`).

Strings are Go byte strings restricted to valid UTF-8: a Lean `String` is a
list of Unicode scalar values, so `utf8.ValidString` holds of every string of
the model.  The separator `/` and the dot are ASCII, hence scanning a string
character by character agrees with Go scanning it byte by byte.

The functions of the Go standard library that the code calls (`strings.TrimPrefix`,
`filepath.Clean`, `filepath.Join`, `fs.ValidPath`) are embedded for a Unix
target (separator `/`, no volume names).
-/

namespace Esfs

/-! ## The tree of a file system

A tree is addressed by lists of names: `.` is the empty list.  File contents
are lists of bytes. -/

mutual
/-- An entry of the virtual file system: a file with its content or a
directory with its entries. -/
inductive VNode
  | file (content : List Nat)
  | dir (entries : VEntries)
/-- The entries of a directory, as `fs.ReadDir` lists them. -/
inductive VEntries
  | nil
  | cons (name : String) (node : VNode) (rest : VEntries)
end

/-- Go `entry.IsDir()`. -/
def VNode.IsDir : VNode → Bool
  | VNode.file _ => false
  | VNode.dir _ => true

/-- The names of the entries of a directory. -/
def VEntries.names : VEntries → List String
  | VEntries.nil => []
  | VEntries.cons name _ rest => name :: rest.names

mutual
/-- The entry of the tree at a path, if there is one. -/
def VNode.lookup : VNode → List String → Option VNode
  | node, [] => some node
  | VNode.file _, _ :: _ => none
  | VNode.dir entries, name :: rest => entries.lookup name rest
/-- The entry at `name/rest` below a directory with these entries. -/
def VEntries.lookup : VEntries → String → List String → Option VNode
  | VEntries.nil, _, _ => none
  | VEntries.cons entryName node more, name, rest =>
    if name = entryName then node.lookup rest else more.lookup name rest
end

mutual
/-- No directory of the tree lists a name twice. -/
def VNode.distinctNames : VNode → Bool
  | VNode.file _ => true
  | VNode.dir entries => entries.distinctNames
/-- No name is listed twice, here and below. -/
def VEntries.distinctNames : VEntries → Bool
  | VEntries.nil => true
  | VEntries.cons name node rest =>
    decide (name ∉ rest.names) && node.distinctNames && rest.distinctNames
end

/-- The virtual tree of the end-to-end scenario: `index.html` with content
`<html>` and `about/index.html` with content `<about>`. -/
def scenarioVTree : VNode :=
  VNode.dir (VEntries.cons "about"
      (VNode.dir (VEntries.cons "index.html" (VNode.file [60, 97, 98, 111, 117, 116, 62])
        VEntries.nil))
    (VEntries.cons "index.html" (VNode.file [60, 104, 116, 109, 108, 62]) VEntries.nil))

/-- The names of a slash separated path, read from the left; `cur` is the
name being read. -/
def splitNames (cur : List Char) : List Char → List String
  | [] => [String.mk cur]
  | c :: rest => if c = '/' then String.mk cur :: splitNames [] rest else splitNames (cur ++ [c]) rest

/-- The list of names of a valid path: none for the root `.`. -/
def pathNames (name : String) : List String :=
  if name = "." then [] else splitNames [] name.data

/-! ## Standard library: strings and paths -/

/-- Go `strings.HasPrefix` on character lists. -/
def hasPrefixChars : List Char → List Char → Bool
  | _, [] => true
  | [], _ :: _ => false
  | c :: s, p :: q => c == p && hasPrefixChars s q

/-- Go `strings.TrimPrefix(s, prefix)`: `s` without the leading `prefix`
when it has it, else `s` unchanged. -/
def TrimPrefix (s pre : String) : String :=
  if hasPrefixChars s.data pre.data then String.mk (s.data.drop pre.data.length) else s

/-- The test of `fs.ValidPath` on one path element: it is refused when it is
empty, `.` or `..`. -/
def badElem (elem : List Char) : Bool :=
  elem == [] || elem == ['.'] || elem == ['.', '.']

/-- The element loop of `fs.ValidPath`.  `elem` is `name[:i]`, the part of the
current element scanned so far by the inner loop; reaching a `/` closes the
element (`name = name[i+1:]`), reaching the end of the name is the clean
ending. -/
def validPathLoop (elem : List Char) : List Char → Bool
  | [] => !badElem elem
  | c :: name =>
    if c = '/' then
      if badElem elem then false else validPathLoop [] name
    else validPathLoop (elem ++ [c]) name

/-- Go `fs.ValidPath(name)`: unrooted, slash separated, no empty, `.` or `..`
element, the root being written `.`. -/
def ValidPath (name : String) : Bool :=
  if name = "." then true else validPathLoop [] name.data

/-- The inner loop of the `..` case of `filepath.Clean`, after the first
`out.w--`: `for out.w > dotdot && !os.IsPathSeparator(out.index(out.w)) { out.w-- }`.
The argument is `out.w`, the result the final `out.w`. -/
def backtrack (buf : List Char) (dotdot : Nat) : Nat → Nat
  | 0 => 0
  | w + 1 =>
    if dotdot < w + 1 ∧ buf.get? (w + 1) ≠ some '/' then backtrack buf dotdot w else w + 1

/-- The main loop `for r < n` of `filepath.Clean`.  The list is `path[r:]`,
`out` is the written part `buf[:w]` of the lazy buffer and `dotdot` the index
where `..` must stop.  `copying = true` is the inner loop of the default case
(`for ; r < n && !os.IsPathSeparator(path[r]); r++`), which copies the current
element; it ends at a separator, which the next turn of the main loop skips. -/
def cleanLoop (rooted : Bool) : Bool → List Char → List Char → Nat → List Char
  | _, [], out, _ => out
  | true, c :: rest, out, dotdot =>
    if c = '/' then cleanLoop rooted false rest out dotdot
    else cleanLoop rooted true rest (out ++ [c]) dotdot
  | false, c :: rest, out, dotdot =>
    if c = '/' then
      -- empty path element
      cleanLoop rooted false rest out dotdot
    else if c = '.' ∧ (rest = [] ∨ rest.head? = some '/') then
      -- . element
      cleanLoop rooted false rest out dotdot
    else if c = '.' ∧ rest.head? = some '.' ∧
        (rest.tail = [] ∨ rest.tail.head? = some '/') then
      -- .. element: remove to last separator
      match rest with
      | [] => out
      | _ :: rest2 =>
        if dotdot < out.length then
          -- can backtrack
          cleanLoop rooted false rest2 (out.take (backtrack out dotdot (out.length - 1))) dotdot
        else if !rooted then
          -- cannot backtrack, but not rooted, so append .. element
          let out1 := if 0 < out.length then out ++ ['/'] else out
          let out2 := out1 ++ ['.', '.']
          cleanLoop rooted false rest2 out2 out2.length
        else cleanLoop rooted false rest2 out dotdot
    else
      -- real path element: add slash if needed, then copy the element
      let out1 :=
        if (rooted ∧ out.length ≠ 1) ∨ (!rooted ∧ out.length ≠ 0) then out ++ ['/'] else out
      cleanLoop rooted true rest (out1 ++ [c]) dotdot

/-- Go `filepath.Clean` on character lists (Unix). -/
def cleanChars (path : List Char) : List Char :=
  match path with
  | [] => ['.']
  | c :: _ =>
    let rooted := c == '/'
    let out :=
      if rooted then cleanLoop true false path.tail ['/'] 1
      else cleanLoop false false path [] 0
    -- Turn empty string into "."
    if out.length = 0 then ['.'] else out

/-- Go `filepath.Clean(path)`. -/
def Clean (path : String) : String := String.mk (cleanChars path.data)

/-- Go `strings.Join(elems, sep)`. -/
def stringsJoin : List String → String → String
  | [], _ => ""
  | [e], _ => e
  | e :: rest, sep => e ++ sep ++ stringsJoin rest sep

/-- Go `filepath.Join(elem...)`: the elements from the first non-empty one on,
joined by the separator and cleaned; the empty string when all are empty. -/
def Join : List String → String
  | [] => ""
  | e :: rest => if e ≠ "" then Clean (stringsJoin (e :: rest) "/") else Join rest

/-- The buffer starts with a `..` element. -/
def dotdotLed (out : List Char) : Prop :=
  ∃ tl, out = '.' :: '.' :: tl ∧ (tl = [] ∨ tl.head? = some '/')

/-! ## The served tree and the request -/

/-- The root causes of the errors of `io/fs` that the code tells apart.  A
wrapped error (`*fs.PathError`) is represented by the error it wraps, since
`errors.Is` looks through the wrapping. -/
inductive FsError
  | ErrNotExist
  | ErrPermission
  | ErrInvalid
  | other (msg : String)
deriving DecidableEq, Repr

/-- Go `errors.Is(err, target)` for an `err` that may be nil (`none`). -/
def errorsIs (err : Option FsError) (target : FsError) : Bool :=
  match err with
  | none => false
  | some e => e == target

/-- A read-only file system (`fs.FS`) by what the code observes of it:
`stat name` is the error of `fs.Stat(fileSystem, name)` (`none` for nil), on
which the rewrite hook relies; `tree` is what `fs.WalkDir` finds in it. -/
structure FS where
  stat : String → Option FsError
  tree : VNode

/-- The part of `fasthttp.RequestCtx` the hook reads: `ctx.Path()`. -/
structure RequestCtx where
  Path : String
deriving DecidableEq, Repr

/-- Go `fasthttp.PathRewriteFunc`. -/
abbrev PathRewriteFunc := RequestCtx → String

/-- The file system of a tree, as `embed.FS` or `fstest.MapFS` serve it: a
name that is not a valid path is refused with `ErrInvalid`, a valid one
exists when the tree has an entry there. -/
def treeFS (tree : VNode) : FS where
  stat := fun name =>
    if !ValidPath name then some FsError.ErrInvalid
    else if (tree.lookup (pathNames name)).isSome then none
    else some FsError.ErrNotExist
  tree := tree

/-! ## The rewrite hook of `Serve` (`PathRewriteToRoot`) -/

/-- The candidate the loop of the hook derives from `path` and one index name:
`strings.TrimPrefix(filepath.Join(string(path), index), "/")`. -/
def resultingPath (path index : String) : String :=
  TrimPrefix (Join [path, index]) "/"

/-- The loop `for _, index := range append([]string{""}, cfg.IndexNames...)`
of the hook.  The first component is the value returned from inside the loop
(`none` when the loop ends without returning), the second the names passed to
`fs.Stat`, in order. -/
def rewriteLoop (fileSystem : FS) (path : String) : List String → Option String × List String
  | [] => (none, [])
  | index :: rest =>
    if !ValidPath (resultingPath path index) then rewriteLoop fileSystem path rest
    else
      let err := fileSystem.stat (resultingPath path index)
      if err == none || !errorsIs err FsError.ErrNotExist then
        (some path, [resultingPath path index])
      else
        ((rewriteLoop fileSystem path rest).1,
          resultingPath path index :: (rewriteLoop fileSystem path rest).2)

/-- The path the hook starts from: the result of the custom `PathRewrite`
when one is configured, else `ctx.Path()`. -/
def startPath (originalPathRewrite : Option PathRewriteFunc) (ctx : RequestCtx) : String :=
  match originalPathRewrite with
  | some rewrite => rewrite ctx
  | none => ctx.Path

/-- The closure `cfg.PathRewrite` that `Serve` installs when
`cfg.PathRewriteToRoot` is set, with the names it passed to `fs.Stat`. -/
def pathRewriteToRootTrace (fileSystem : FS) (IndexNames : List String)
    (originalPathRewrite : Option PathRewriteFunc) (ctx : RequestCtx) : String × List String :=
  let path := startPath originalPathRewrite ctx
  let r := rewriteLoop fileSystem path ("" :: IndexNames)
  match r.1 with
  | some p => (p, r.2)
  | none => ("/", r.2)

/-- The closure `cfg.PathRewrite` that `Serve` installs when
`cfg.PathRewriteToRoot` is set. -/
def pathRewriteToRoot (fileSystem : FS) (IndexNames : List String)
    (originalPathRewrite : Option PathRewriteFunc) : PathRewriteFunc :=
  fun ctx => (pathRewriteToRootTrace fileSystem IndexNames originalPathRewrite ctx).1

/-- The names the hook passes to `fs.Stat` while it serves one request. -/
def statCalls (fileSystem : FS) (IndexNames : List String)
    (originalPathRewrite : Option PathRewriteFunc) (ctx : RequestCtx) : List String :=
  (pathRewriteToRootTrace fileSystem IndexNames originalPathRewrite ctx).2

/-- A candidate is a miss when it is not a valid path (the loop skips it) or
when `fs.Stat` reports that it does not exist. -/
def isMiss (fileSystem : FS) (name : String) : Bool :=
  !ValidPath name || errorsIs (fileSystem.stat name) FsError.ErrNotExist

/-- The name exists in the tree: it is a valid path (an `fs.FS` refuses any
other name) and `fs.Stat` succeeds on it. -/
def existsIn (fileSystem : FS) (name : String) : Prop :=
  ValidPath name = true ∧ fileSystem.stat name = none

/-! ## Example trees -/

/-- The file system of the end-to-end scenario: `index.html` and
`about/index.html`. -/
def scenarioTree : FS := treeFS scenarioVTree

/-- A tree without any index file. -/
def scriptTree : FS :=
  treeFS (VNode.dir (VEntries.cons "main.js" (VNode.file [49]) VEntries.nil))

/-- A file system in which `private` cannot be inspected: `fs.Stat` fails on
it with a permission error; nothing else exists. -/
def guardedFS : FS where
  stat := fun name =>
    if name = "private" then some FsError.ErrPermission else some FsError.ErrNotExist
  tree := VNode.dir VEntries.nil

/-- A file system that has no index file and answers for its root under the
empty name as well as under `.`. -/
def rootOnlyFS : FS where
  stat := fun name => if name = "" ∨ name = "." then none else some FsError.ErrNotExist
  tree := VNode.dir VEntries.nil

/-! ## Configuration, options and validation -/

/-- The fields of `fasthttp.Server` the code sets: `Logger`, which the
default server sends to `DiscardLogger`. -/
structure Server where
  discardLogger : Bool
deriving DecidableEq, Repr

/-- A `fasthttp.RequestHandler` for `PathNotFound`: the default handler
(`ctx.NotFound()`) or a handler of the caller. -/
inductive RequestHandler
  | notFound
  | custom (name : String)
deriving DecidableEq, Repr

/-- The struct `Config`.  A nil pointer, interface or function is `none`;
`os.FileMode` and `time.Duration` are their integer values. -/
structure Config where
  Addr : String
  Server : Option Server
  GracefulShutdown : Bool
  SubDir : String
  Dir : String
  FileSystem : Option FS
  TempDir : String
  TempDirPattern : String
  TempFilesPerm : Nat
  IndexNames : List String
  GenerateIndexPages : Bool
  Compress : Bool
  CompressBrotli : Bool
  AcceptByteRange : Bool
  PathRewrite : Option PathRewriteFunc
  PathRewriteToRoot : Bool
  PathNotFound : Option RequestHandler
  CacheDuration : Int

/-- The type `Option` of the package: a function that changes the
configuration or fails. -/
abbrev ConfigOption := Config → Except String Config

/-- The configuration `Serve` starts from, before the options are applied. -/
def defaultConfig (addr : String) : Config where
  Addr := addr
  Server := some { discardLogger := true }
  GracefulShutdown := false
  SubDir := ""
  Dir := ""
  FileSystem := none
  TempDir := ""
  TempDirPattern := "esfs-"
  TempFilesPerm := 0o700
  IndexNames := ["index.html"]
  GenerateIndexPages := false
  Compress := false
  CompressBrotli := false
  AcceptByteRange := false
  PathRewrite := none
  PathRewriteToRoot := false
  PathNotFound := some RequestHandler.notFound
  CacheDuration := 0

/-- Option `WithServer`. -/
def WithServer (server : Option Server) : ConfigOption :=
  fun cfg => Except.ok { cfg with Server := server }

/-- Option `WithGracefulShutdown`. -/
def WithGracefulShutdown : ConfigOption :=
  fun cfg => Except.ok { cfg with GracefulShutdown := true }

/-- Option `WithDir`. -/
def WithDir (dir : String) : ConfigOption :=
  fun cfg => Except.ok { cfg with Dir := dir }

/-- Option `WithFS`. -/
def WithFS (fileSystem : Option FS) : ConfigOption :=
  fun cfg => Except.ok { cfg with FileSystem := fileSystem }

/-- Option `WithSubDir`. -/
def WithSubDir (dir : String) : ConfigOption :=
  fun cfg => Except.ok { cfg with SubDir := dir }

/-- Option `WithTempDir`. -/
def WithTempDir (dir : String) : ConfigOption :=
  fun cfg => Except.ok { cfg with TempDir := dir }

/-- Option `WithTempDirPattern`. -/
def WithTempDirPattern (pattern : String) : ConfigOption :=
  fun cfg => Except.ok { cfg with TempDirPattern := pattern }

/-- Option `WithTempFilesPerm`. -/
def WithTempFilesPerm (perm : Nat) : ConfigOption :=
  fun cfg => Except.ok { cfg with TempFilesPerm := perm }

/-- Option `WithIndexNames`. -/
def WithIndexNames (names : List String) : ConfigOption :=
  fun cfg => Except.ok { cfg with IndexNames := names }

/-- Option `WithGenerateIndexPages`. -/
def WithGenerateIndexPages : ConfigOption :=
  fun cfg => Except.ok { cfg with GenerateIndexPages := true }

/-- Option `WithCompress`. -/
def WithCompress : ConfigOption :=
  fun cfg => Except.ok { cfg with Compress := true }

/-- Option `WithCompressBrotli`: it sets `Compress` as well. -/
def WithCompressBrotli : ConfigOption :=
  fun cfg => Except.ok { cfg with Compress := true, CompressBrotli := true }

/-- Option `WithAcceptByteRange`. -/
def WithAcceptByteRange : ConfigOption :=
  fun cfg => Except.ok { cfg with AcceptByteRange := true }

/-- Option `WithPathRewrite`. -/
def WithPathRewrite (rewrite : Option PathRewriteFunc) : ConfigOption :=
  fun cfg => Except.ok { cfg with PathRewrite := rewrite }

/-- Option `WithPathRewriteToRoot`. -/
def WithPathRewriteToRoot : ConfigOption :=
  fun cfg => Except.ok { cfg with PathRewriteToRoot := true }

/-- Option `WithPathNotFound`. -/
def WithPathNotFound (handler : Option RequestHandler) : ConfigOption :=
  fun cfg => Except.ok { cfg with PathNotFound := handler }

/-- Option `WithCacheDuration`. -/
def WithCacheDuration (duration : Int) : ConfigOption :=
  fun cfg => Except.ok { cfg with CacheDuration := duration }

/-- The loop of `Serve` over the options: each is applied in turn, the first
failure is returned as `options: ...`. -/
def applyOptions (cfg : Config) : List ConfigOption → Except String Config
  | [] => Except.ok cfg
  | op :: rest =>
    match op cfg with
    | Except.error err => Except.error ("options: " ++ err)
    | Except.ok cfg1 => applyOptions cfg1 rest

/-- What the validation tags ask of the world outside the configuration:
`hostname_port` (a syntax check) and `dir` (the path is an existing
directory). -/
structure ValidatorEnv where
  hostnamePort : String → Bool
  isDir : String → Bool

/-- Tag `required_without=Other` of `validator`: the field must have a value
when the other field has none. -/
def requiredWithout (otherHasValue fieldHasValue : Bool) : Bool :=
  if !otherHasValue then fieldHasValue else true

/-- Tag `required_with=Other` of `validator`: the field must have a value
when the other field has one. -/
def requiredWith (otherHasValue fieldHasValue : Bool) : Bool :=
  if otherHasValue then fieldHasValue else true

/-- Tag `excluded_unless=Other value` of `validator`: the field must be
empty, unless the other field equals the value (`excludedUnless` of
`baked_in.go`: `if !requireCheckFieldValue(...) { return !hasValue(fl) }`,
else `true`). -/
def excludedUnless (otherEqualsValue fieldHasValue : Bool) : Bool :=
  if !otherEqualsValue then !fieldHasValue else true

/-- Field `Addr string validate:"hostname_port"`. -/
def checkAddr (env : ValidatorEnv) (cfg : Config) : Bool :=
  env.hostnamePort cfg.Addr

/-- Field `Server *fasthttp.Server validate:"required"`. -/
def checkServer (cfg : Config) : Bool :=
  cfg.Server.isSome

/-- Field `Dir string validate:"omitempty,dir"`. -/
def checkDir (env : ValidatorEnv) (cfg : Config) : Bool :=
  if cfg.Dir = "" then true else env.isDir cfg.Dir

/-- Field `FileSystem fs.FS validate:"required_without=Dir"`. -/
def checkFileSystem (cfg : Config) : Bool :=
  requiredWithout (cfg.Dir != "") cfg.FileSystem.isSome

/-- Field `TempDir string validate:"omitempty,required_with=FileSystem,dir"`. -/
def checkTempDir (env : ValidatorEnv) (cfg : Config) : Bool :=
  if cfg.TempDir = "" then true
  else requiredWith cfg.FileSystem.isSome (cfg.TempDir != "") && env.isDir cfg.TempDir

/-- Field `TempFilesPerm os.FileMode validate:"required_with=FileSystem"`. -/
def checkTempFilesPerm (cfg : Config) : Bool :=
  requiredWith cfg.FileSystem.isSome (cfg.TempFilesPerm != 0)

/-- Field `CompressBrotli bool validate:"omitempty,excluded_unless=Compress false"`. -/
def checkCompressBrotli (cfg : Config) : Bool :=
  if cfg.CompressBrotli = false then true
  else excludedUnless (cfg.Compress == false) cfg.CompressBrotli

/-- Field `CacheDuration time.Duration validate:"gte=0"`. -/
def checkCacheDuration (cfg : Config) : Bool :=
  decide (0 ≤ cfg.CacheDuration)

/-- Go `validate.Struct(cfg)`: the fields whose tags fail, in the order of the
struct; the configuration is valid when there is none. -/
def validateStruct (env : ValidatorEnv) (cfg : Config) : List String :=
  (if checkAddr env cfg then [] else ["Addr"]) ++
  (if checkServer cfg then [] else ["Server"]) ++
  (if checkDir env cfg then [] else ["Dir"]) ++
  (if checkFileSystem cfg then [] else ["FileSystem"]) ++
  (if checkTempDir env cfg then [] else ["TempDir"]) ++
  (if checkTempFilesPerm cfg then [] else ["TempFilesPerm"]) ++
  (if checkCompressBrotli cfg then [] else ["CompressBrotli"]) ++
  (if checkCacheDuration cfg then [] else ["CacheDuration"])

/-- The first part of `Serve`: the defaults, the options, the validation.
The result is the validated configuration or the error `Serve` returns. -/
def configure (env : ValidatorEnv) (addr : String) (options : List ConfigOption) :
    Except String Config :=
  match applyOptions (defaultConfig addr) options with
  | Except.error err => Except.error err
  | Except.ok cfg =>
    if validateStruct env cfg = [] then Except.ok cfg
    else Except.error ("config validation: " ++ ", ".intercalate (validateStruct env cfg))

/-- An environment for the examples: every address is well formed, and the
only directories are `public` and `/tmp`. -/
def exampleEnv : ValidatorEnv where
  hostnamePort := fun _ => true
  isDir := fun p => p == "public" || p == "/tmp"

/-! ## Materialization: the disk and `copyFSToDisk`

Disk paths are lists of names as well; `path.Join(name, elem)` of `fs.WalkDir`
and `filepath.Join(rootDir, path)` of the callback append. -/

/-- An entry of the disk: a directory or a regular file, with its permission
bits. -/
inductive DNode
  | dir (mode : Nat)
  | file (mode : Nat) (content : List Nat)
deriving DecidableEq, Repr

/-- The disk: what there is at each absolute path. -/
abbrev Disk := List String → Option DNode

/-- The disk with `node` at path `p`. -/
def Disk.put (disk : Disk) (p : List String) (node : DNode) : Disk :=
  fun q => if q = p then some node else disk q

/-- The failures the environment may inject, by operation and path: of the
virtual file system (`fs.Stat` of the root, `fs.ReadDir`, `Open`, reading
during `io.Copy`, with the number of bytes written before the failure) and of
the disk (`os.MkdirAll`, `os.OpenFile`, beyond those that follow from the
state of the disk), and the umask of the process. -/
structure Faults where
  statRoot : Option FsError
  readDir : List String → Option FsError
  openSrc : List String → Option FsError
  copy : List String → Option (Nat × FsError)
  mkdirAll : List String → Option FsError
  openFile : List String → Option FsError
  umask : Nat

/-- The operations `copyFSToDisk` performs. -/
inductive Op
  | stat
  | readDir
  | mkdirAll
  | openFile
  | openSrc
  | copy
deriving DecidableEq, Repr

/-- One operation performed, with its path and its error (`none` for nil). -/
structure Step where
  op : Op
  path : List String
  err : Option FsError
deriving DecidableEq, Repr

/-- The result of a walk: the error returned, the disk, the operations
performed in order. -/
structure CopyResult where
  err : Option FsError
  disk : Disk
  steps : List Step

/-- The permission bits of an entry created with `perm`: `perm.Perm()` with
the bits of the umask cleared (`os.OpenFile`, `os.MkdirAll`: "before umask"). -/
def createMode (umask perm : Nat) : Nat :=
  (perm % 512) &&& (511 ^^^ (umask % 512))

/-- The directory loop of `os.MkdirAll`: every directory on the way from
`pre` down to `pre ++ rest` is kept when it exists and created when it does
not; a file on the way is an error. -/
def mkdirAllFrom (mode : Nat) : List String → List String → Disk → Except FsError Disk
  | pre, [], disk =>
    match disk pre with
    | some (DNode.dir _) => Except.ok disk
    | some (DNode.file _ _) => Except.error (FsError.other "not a directory")
    | none => Except.ok (disk.put pre (DNode.dir mode))
  | pre, name :: rest, disk =>
    match disk pre with
    | some (DNode.dir _) => mkdirAllFrom mode (pre ++ [name]) rest disk
    | some (DNode.file _ _) => Except.error (FsError.other "not a directory")
    | none => mkdirAllFrom mode (pre ++ [name]) rest (disk.put pre (DNode.dir mode))

/-- Go `os.MkdirAll(p, perm)`. -/
def MkdirAll (faults : Faults) (p : List String) (perm : Nat) (disk : Disk) :
    Except FsError Disk :=
  match faults.mkdirAll p with
  | some e => Except.error e
  | none => mkdirAllFrom (createMode faults.umask perm) [] p disk

/-- Go `os.OpenFile(p, os.O_CREATE|os.O_WRONLY, perm)`: an existing file is
opened as it is (no truncation), a missing one is created empty in its
directory. -/
def OpenFile (faults : Faults) (p : List String) (perm : Nat) (disk : Disk) :
    Except FsError Disk :=
  match faults.openFile p with
  | some e => Except.error e
  | none =>
    match disk p with
    | some (DNode.dir _) => Except.error (FsError.other "is a directory")
    | some (DNode.file _ _) => Except.ok disk
    | none =>
      match disk p.dropLast with
      | some (DNode.dir _) => Except.ok (disk.put p (DNode.file (createMode faults.umask perm) []))
      | some (DNode.file _ _) => Except.error (FsError.other "not a directory")
      | none => Except.error FsError.ErrNotExist

/-- Writing `data` from offset 0 to the file open at `p`, as `io.Copy` does on
a file opened without `O_TRUNC` or `O_APPEND`. -/
def writeFile (p : List String) (data : List Nat) (disk : Disk) : Disk :=
  match disk p with
  | some (DNode.file mode old) => disk.put p (DNode.file mode (data ++ old.drop data.length))
  | _ => disk

/-- The callback that `copyFSToDisk` gives to `fs.WalkDir`:
`func(path string, entry fs.DirEntry, err error) error`. -/
def copyEntry (faults : Faults) (cfg : Config) (rootDir path : List String)
    (entry : VNode) (err : Option FsError) (disk : Disk) : CopyResult :=
  match err with
  | some e => { err := some e, disk := disk, steps := [] }
  | none =>
    let p := rootDir ++ path
    match entry with
    | VNode.dir _ =>
      match MkdirAll faults p cfg.TempFilesPerm disk with
      | Except.error e =>
        { err := some e, disk := disk, steps := [{ op := Op.mkdirAll, path := p, err := some e }] }
      | Except.ok disk1 =>
        { err := none, disk := disk1, steps := [{ op := Op.mkdirAll, path := p, err := none }] }
    | VNode.file content =>
      match OpenFile faults p cfg.TempFilesPerm disk with
      | Except.error e =>
        { err := some e, disk := disk, steps := [{ op := Op.openFile, path := p, err := some e }] }
      | Except.ok disk1 =>
        match faults.openSrc path with
        | some e =>
          { err := some e, disk := disk1,
            steps := [{ op := Op.openFile, path := p, err := none },
              { op := Op.openSrc, path := path, err := some e }] }
        | none =>
          match faults.copy path with
          | some (n, e) =>
            { err := some e, disk := writeFile p (content.take n) disk1,
              steps := [{ op := Op.openFile, path := p, err := none },
                { op := Op.openSrc, path := path, err := none },
                { op := Op.copy, path := path, err := some e }] }
          | none =>
            { err := none, disk := writeFile p content disk1,
              steps := [{ op := Op.openFile, path := p, err := none },
                { op := Op.openSrc, path := path, err := none },
                { op := Op.copy, path := path, err := none }] }

mutual
/-- The function `walkDir` of `io/fs` with the callback of `copyFSToDisk`:
the callback on the entry, then `fs.ReadDir` and the entries when it is a
directory.  A failure of `fs.ReadDir` is reported to the callback, which
returns it.  (The callback never returns `fs.SkipDir` or `fs.SkipAll`.) -/
def walkDir (faults : Faults) (cfg : Config) (rootDir : List String) :
    List String → VNode → Disk → CopyResult
  | name, VNode.file content, disk =>
    copyEntry faults cfg rootDir name (VNode.file content) none disk
  | name, VNode.dir entries, disk =>
    match (copyEntry faults cfg rootDir name (VNode.dir entries) none disk).err with
    | some e =>
      { err := some e,
        disk := (copyEntry faults cfg rootDir name (VNode.dir entries) none disk).disk,
        steps := (copyEntry faults cfg rootDir name (VNode.dir entries) none disk).steps }
    | none =>
      match faults.readDir name with
      | some e =>
        { err := (copyEntry faults cfg rootDir name (VNode.dir entries) (some e)
              (copyEntry faults cfg rootDir name (VNode.dir entries) none disk).disk).err,
          disk := (copyEntry faults cfg rootDir name (VNode.dir entries) none disk).disk,
          steps := (copyEntry faults cfg rootDir name (VNode.dir entries) none disk).steps ++
            [{ op := Op.readDir, path := name, err := some e }] }
      | none =>
        { err := (walkEntries faults cfg rootDir name entries
              (copyEntry faults cfg rootDir name (VNode.dir entries) none disk).disk).err,
          disk := (walkEntries faults cfg rootDir name entries
              (copyEntry faults cfg rootDir name (VNode.dir entries) none disk).disk).disk,
          steps := (copyEntry faults cfg rootDir name (VNode.dir entries) none disk).steps ++
            { op := Op.readDir, path := name, err := none } ::
            (walkEntries faults cfg rootDir name entries
              (copyEntry faults cfg rootDir name (VNode.dir entries) none disk).disk).steps }
/-- The loop `for _, d1 := range dirs` of `walkDir`: it stops at the first
entry whose walk returns an error. -/
def walkEntries (faults : Faults) (cfg : Config) (rootDir : List String) :
    List String → VEntries → Disk → CopyResult
  | _, VEntries.nil, disk => { err := none, disk := disk, steps := [] }
  | name, VEntries.cons entryName node rest, disk =>
    match (walkDir faults cfg rootDir (name ++ [entryName]) node disk).err with
    | some e =>
      { err := some e,
        disk := (walkDir faults cfg rootDir (name ++ [entryName]) node disk).disk,
        steps := (walkDir faults cfg rootDir (name ++ [entryName]) node disk).steps }
    | none =>
      { err := (walkEntries faults cfg rootDir name rest
            (walkDir faults cfg rootDir (name ++ [entryName]) node disk).disk).err,
        disk := (walkEntries faults cfg rootDir name rest
            (walkDir faults cfg rootDir (name ++ [entryName]) node disk).disk).disk,
        steps := (walkDir faults cfg rootDir (name ++ [entryName]) node disk).steps ++
          (walkEntries faults cfg rootDir name rest
            (walkDir faults cfg rootDir (name ++ [entryName]) node disk).disk).steps }
end

/-- Go `fs.WalkDir(fileSystem, ".", fn)` with the callback of `copyFSToDisk`:
when `fs.Stat` of the root fails the callback gets the error and returns it,
else the tree is walked from the root. -/
def WalkDir (faults : Faults) (cfg : Config) (rootDir : List String) (fileSystem : VNode)
    (disk : Disk) : CopyResult :=
  match faults.statRoot with
  | some e =>
    { err := some e, disk := disk, steps := [{ op := Op.stat, path := [], err := some e }] }
  | none =>
    { err := (walkDir faults cfg rootDir [] fileSystem disk).err,
      disk := (walkDir faults cfg rootDir [] fileSystem disk).disk,
      steps := { op := Op.stat, path := [], err := none } ::
        (walkDir faults cfg rootDir [] fileSystem disk).steps }

/-- The function `copyFSToDisk(cfg, fileSystem, rootDir)`: the error it
returns, with the disk it leaves and the operations it performed. -/
def copyFSToDisk (faults : Faults) (cfg : Config) (fileSystem : VNode) (rootDir : List String)
    (disk : Disk) : CopyResult :=
  WalkDir faults cfg rootDir fileSystem disk

/-- An environment without injected failures. -/
def noFaults (umask : Nat) : Faults where
  statRoot := none
  readDir := fun _ => none
  openSrc := fun _ => none
  copy := fun _ => none
  mkdirAll := fun _ => none
  openFile := fun _ => none
  umask := umask

/-- A disk on which only `/`, `/tmp` and the fresh staging root
`/tmp/esfs-1` exist, as directories. -/
def freshDisk : Disk := fun q =>
  if q = [] then some (DNode.dir 0o755)
  else if q = ["tmp"] then some (DNode.dir 0o777)
  else if q = ["tmp", "esfs-1"] then some (DNode.dir 0o700)
  else none

/-- The change an operation may make to a path outside its target: none, or
the creation of a missing directory on the way to the target. -/
def framed (target : List String) (before after : Disk) (q : List String) : Prop :=
  after q = before q ∨ (before q = none ∧ ∃ t, target = q ++ t)

/-- The entry of the disk mirrors an entry of the tree: a directory for a
directory, for a file a file with the same content and the given mode. -/
def mirrors (mode : Nat) (node : VNode) (d : Option DNode) : Prop :=
  match node with
  | VNode.file content => d = some (DNode.file mode content)
  | VNode.dir _ => ∃ m, d = some (DNode.dir m)

/-- The walk stops at the first error and returns it: when no error is
returned every operation performed has succeeded; when an error is returned
it is the error of the last operation performed, and every operation before
it has succeeded. -/
def stopsAtFirstError (err : Option FsError) (steps : List Step) : Prop :=
  match err with
  | none => ∀ s ∈ steps, s.err = none
  | some e => ∃ pre last, steps = pre ++ [last] ∧ last.err = some e ∧ ∀ s ∈ pre, s.err = none

/-! ## `Serve`: staging, serving and cleanup -/

/-- How the run of the server ends, as the environment decides it:
`ListenAndServe` fails (the address cannot be bound), or the server runs
until the process receives SIGINT or SIGTERM, `Shutdown` then returning
`shutdownErr`. -/
inductive ServerRun
  | startFails (err : FsError)
  | signalled (shutdownErr : Option FsError)
deriving DecidableEq, Repr

/-- The error `Serve` returns, by the wrapping message. -/
inductive ServeError
  | options (msg : String)
  | configValidation (fields : List String)
  | fsSubDir (err : FsError)
  | makeTempDir (err : FsError)
  | copyFSToDisk (err : FsError)
  | server (err : FsError)
deriving DecidableEq, Repr

/-- How a call of `Serve` ends: it returns (`none` for a nil error), the
process exits through `os.Exit`, or the signal terminates the process because
no handler is installed. -/
inductive Outcome
  | returned (err : Option ServeError)
  | exited (code : Nat)
  | killed
deriving DecidableEq, Repr

/-- The environment of one call of `Serve`. -/
structure ServeEnv where
  validator : ValidatorEnv
  faults : Faults
  /-- The result of `fs.Sub(cfg.FileSystem, cfg.SubDir)`. -/
  sub : FS → String → Except FsError FS
  /-- The result of `os.DirFS(rootDir)`. -/
  dirFS : String → FS
  /-- The fresh name `os.MkdirTemp(cfg.TempDir, cfg.TempDirPattern)` picks, or
  its failure. -/
  tempName : String → String → Except FsError (List String)
  /-- The failure of `os.RemoveAll`, if it fails. -/
  removeAll : Option FsError
  run : ServerRun

/-- The state `Serve` acts on: the disk, the calls of `os.RemoveAll` made so
far, the lines printed, and the `PathRewrite` of the `fasthttp.FS` whose
handler the server got (`none` before, and when there is no rewrite). -/
structure World where
  disk : Disk
  removed : List (List String)
  printed : List String
  pathRewrite : Option PathRewriteFunc

/-- The path `q` is `p` or below it. -/
def isBelow (p : List String) : List String → Bool
  | q => q.take p.length == p

/-- Go `os.MkdirTemp`: the new directory is created with mode 0o700 (before
umask); a name that exists already is a failure. -/
def MkdirTemp (env : ServeEnv) (dir pattern : String) (world : World) :
    Except FsError (List String × World) :=
  match env.tempName dir pattern with
  | Except.error e => Except.error e
  | Except.ok rootDir =>
    match world.disk rootDir with
    | some _ => Except.error (FsError.other "file exists")
    | none =>
      Except.ok (rootDir,
        { world with disk := world.disk.put rootDir (DNode.dir (createMode env.faults.umask 0o700)) })

/-- The deferred function of `Serve`: `os.RemoveAll(rootDir)`, which removes
the directory and all below it, and the report of its failure. -/
def cleanUp (env : ServeEnv) (rootDir : List String) (world : World) : World :=
  match env.removeAll with
  | some _ =>
    { world with removed := world.removed ++ [rootDir],
                 printed := world.printed ++ ["Clean up failed"] }
  | none =>
    { world with disk := fun q => if isBelow rootDir q then none else world.disk q,
                 removed := world.removed ++ [rootDir] }

/-- The deferred functions run when `Serve` returns, not when the process
exits or is killed. -/
def runDeferred (env : ServeEnv) (deferred : Option (List String)) (outcome : Outcome)
    (world : World) : Outcome × World :=
  match outcome, deferred with
  | Outcome.returned err, some rootDir => (Outcome.returned err, cleanUp env rootDir world)
  | _, _ => (outcome, world)

/-- The `PathRewrite` that `Serve` hands to `fasthttp.FS`. -/
def installedPathRewrite (cfg : Config) (fileSystem : FS) : Option PathRewriteFunc :=
  if cfg.PathRewriteToRoot then some (pathRewriteToRoot fileSystem cfg.IndexNames cfg.PathRewrite)
  else cfg.PathRewrite

/-- The end of `Serve`, from the installation of the rewrite hook on: the
handler is built, `Running...` is printed and the server runs,
in the calling goroutine when `GracefulShutdown` is not set, else beside the
goroutine that waits for the signal. -/
def serveRun (env : ServeEnv) (cfg : Config) (fileSystem : FS) (world : World) :
    Outcome × World :=
  let world1 := { world with
    pathRewrite := installedPathRewrite cfg fileSystem,
    printed := world.printed ++ ["Running..."] }
  if !cfg.GracefulShutdown then
    match env.run with
    | ServerRun.startFails e => (Outcome.returned (some (ServeError.server e)), world1)
    | ServerRun.signalled _ => (Outcome.killed, world1)
  else
    match env.run with
    | ServerRun.startFails _ =>
      (Outcome.exited 1, { world1 with printed := world1.printed ++ ["Error: start server"] })
    | ServerRun.signalled shutdownErr =>
      let world2 := { world1 with printed := world1.printed ++ ["Stopping..."] }
      let world3 :=
        match shutdownErr with
        | some _ => { world2 with printed := world2.printed ++ ["Error: shutdown server"] }
        | none => world2
      (Outcome.returned none, { world3 with printed := world3.printed ++ ["Done"] })

/-- The function `Serve(addr, options...)`. -/
def Serve (env : ServeEnv) (addr : String) (options : List ConfigOption) (world : World) :
    Outcome × World :=
  match applyOptions (defaultConfig addr) options with
  | Except.error msg => (Outcome.returned (some (ServeError.options msg)), world)
  | Except.ok cfg =>
    if validateStruct env.validator cfg ≠ [] then
      (Outcome.returned (some (ServeError.configValidation (validateStruct env.validator cfg))),
        world)
    else
      match cfg.FileSystem with
      | some fileSystem0 =>
        match (if cfg.SubDir ≠ "" then env.sub fileSystem0 cfg.SubDir else Except.ok fileSystem0) with
        | Except.error e => (Outcome.returned (some (ServeError.fsSubDir e)), world)
        | Except.ok fileSystem =>
          match MkdirTemp env cfg.TempDir cfg.TempDirPattern world with
          | Except.error e => (Outcome.returned (some (ServeError.makeTempDir e)), world)
          | Except.ok (rootDir, world1) =>
            match (copyFSToDisk env.faults cfg fileSystem.tree rootDir world1.disk).err with
            | some e =>
              -- returns before the cleanup is deferred
              (Outcome.returned (some (ServeError.copyFSToDisk e)),
                { world1 with
                  disk := (copyFSToDisk env.faults cfg fileSystem.tree rootDir world1.disk).disk })
            | none =>
              let world2 := { world1 with
                disk := (copyFSToDisk env.faults cfg fileSystem.tree rootDir world1.disk).disk }
              -- defer func() { err = os.RemoveAll(rootDir); ... }()
              let r := serveRun env { cfg with FileSystem := some fileSystem } fileSystem world2
              runDeferred env (some rootDir) r.1 r.2
      | none =>
        let cfg1 := if cfg.SubDir ≠ "" then { cfg with Dir := Join [cfg.Dir, cfg.SubDir] } else cfg
        let r := serveRun env cfg1 (env.dirFS cfg1.Dir) world
        runDeferred env none r.1 r.2

/-- The environment of the examples: nothing fails but what each example
says; the staging root is `/tmp/esfs-1`. -/
def exampleServeEnv (faults : Faults) (run : ServerRun) : ServeEnv where
  validator := exampleEnv
  faults := faults
  sub := fun fileSystem _ => Except.ok fileSystem
  dirFS := fun _ => scriptTree
  tempName := fun _ _ => Except.ok ["tmp", "esfs-1"]
  removeAll := none
  run := run

/-- A world in which only `/` and `/tmp` exist. -/
def startWorld : World where
  disk := fun q =>
    if q = [] then some (DNode.dir 0o755)
    else if q = ["tmp"] then some (DNode.dir 0o777)
    else none
  removed := []
  printed := []
  pathRewrite := none

/-- Faults under which `about/index.html` of the virtual file system cannot
be opened. -/
def unreadableAbout : Faults :=
  { noFaults 0o022 with
    openSrc := fun p => if p = ["about", "index.html"] then some FsError.ErrPermission else none }

/-! ## Lemmas on `filepath.Clean` and `fs.ValidPath` -/

theorem cleanLoop_true_cons (rooted : Bool) (c : Char) (rest out : List Char) (dd : Nat) :
    cleanLoop rooted true (c :: rest) out dd =
      if c = '/' then cleanLoop rooted false rest out dd
      else cleanLoop rooted true rest (out ++ [c]) dd := by
  simp only [cleanLoop]

theorem cleanLoop_false_default (rooted : Bool) (c : Char) (rest out : List Char) (dd : Nat)
    (hc : c ≠ '/') (hdot : ¬ (c = '.' ∧ (rest = [] ∨ rest.head? = some '/')))
    (hdotdot : ¬ (c = '.' ∧ rest.head? = some '.' ∧
      (rest.tail = [] ∨ rest.tail.head? = some '/'))) :
    cleanLoop rooted false (c :: rest) out dd =
      cleanLoop rooted true rest
        ((if (rooted = true ∧ out.length ≠ 1) ∨ ((!rooted) = true ∧ out.length ≠ 0)
          then out ++ ['/'] else out) ++ [c]) dd := by
  rw [cleanLoop.eq_def]
  simp only [if_neg hc, if_neg hdot, if_neg hdotdot]

theorem cleanLoop_valid (rooted : Bool) (dd : Nat) (rest : List Char) :
    (∀ elem out, elem ≠ [] → validPathLoop elem rest = true →
        (rooted = true → 2 ≤ out.length) → (rooted = false → 1 ≤ out.length) →
        cleanLoop rooted true (rest ++ ['/']) out dd = out ++ rest) ∧
    (∀ out, validPathLoop [] rest = true → (rooted = true → 1 ≤ out.length) →
        cleanLoop rooted false (rest ++ ['/']) out dd =
          (if (rooted = true ∧ out.length ≠ 1) ∨ ((!rooted) = true ∧ out.length ≠ 0)
            then out ++ ['/'] else out) ++ rest) := by
  induction rest with
  | nil =>
    constructor
    · intro elem out _ _ _ _
      simp [cleanLoop]
    · intro out h _
      simp [validPathLoop, badElem] at h
  | cons c r ih =>
    obtain ⟨ihT, ihF⟩ := ih
    constructor
    · intro elem out hne hv h1 h2
      rw [List.cons_append, cleanLoop_true_cons]
      by_cases hc : c = '/'
      · subst hc
        simp only [validPathLoop, if_true] at hv
        have hv2 : validPathLoop [] r = true := by
          by_cases hb : badElem elem = true
          · simp [hb] at hv
          · simpa [hb] using hv
        rw [if_pos rfl, ihF out hv2 (fun h => by have := h1 h; omega)]
        have hcond : (rooted = true ∧ out.length ≠ 1) ∨ ((!rooted) = true ∧ out.length ≠ 0) := by
          cases rooted with
          | true => left; exact ⟨rfl, by have := h1 rfl; omega⟩
          | false => right; exact ⟨rfl, by have := h2 rfl; omega⟩
        rw [if_pos hcond]
        simp
      · simp only [validPathLoop, if_neg hc] at hv
        rw [if_neg hc, ihT (elem ++ [c]) (out ++ [c]) (by simp) hv
          (fun h => by have := h1 h; simp; omega) (fun h => by simp)]
        simp
    · intro out hv h1
      have hc : c ≠ '/' := by
        intro hc
        subst hc
        simp [validPathLoop, badElem] at hv
      simp only [validPathLoop, if_neg hc, List.nil_append] at hv
      have hdot : ¬ (c = '.' ∧ (r ++ ['/'] = [] ∨ (r ++ ['/']).head? = some '/')) := by
        rintro ⟨hd, h⟩
        subst hd
        rcases r with _ | ⟨d, r2⟩
        · simp [validPathLoop, badElem] at hv
        · rcases h with h | h
          · simp at h
          · simp at h
            subst h
            simp [validPathLoop, badElem] at hv
      have hdotdot : ¬ (c = '.' ∧ (r ++ ['/']).head? = some '.' ∧
          ((r ++ ['/']).tail = [] ∨ (r ++ ['/']).tail.head? = some '/')) := by
        rintro ⟨hd, h1, h2⟩
        subst hd
        rcases r with _ | ⟨d, r2⟩
        · simp at h1
        · simp at h1
          subst h1
          rcases r2 with _ | ⟨e, r3⟩
          · simp [validPathLoop, badElem] at hv
          · rcases h2 with h2 | h2
            · simp at h2
            · simp at h2
              subst h2
              simp [validPathLoop, badElem] at hv
      rw [List.cons_append]
      rw [cleanLoop_false_default rooted c _ out dd hc hdot hdotdot]
      rw [ihT [c] _ (by simp) hv
        (fun h => by
          have := h1 h
          split <;> simp only [List.length_append, List.length_singleton] <;> omega)
        (fun h => by simp)]
      simp

theorem slash_data : ("/" : String).data = ['/'] := rfl

theorem TrimPrefix_slash_cons (t : List Char) :
    TrimPrefix (String.mk ('/' :: t)) "/" = String.mk t := by
  simp [TrimPrefix, slash_data, hasPrefixChars]

theorem TrimPrefix_slash_other (c : Char) (t : List Char) (hc : c ≠ '/') :
    TrimPrefix (String.mk (c :: t)) "/" = String.mk (c :: t) := by
  simp [TrimPrefix, slash_data, hasPrefixChars, hc]

theorem TrimPrefix_slash_nil : TrimPrefix (String.mk []) "/" = String.mk [] := by
  simp [TrimPrefix, slash_data, hasPrefixChars]

theorem Join_pair_empty_cons (c : Char) (t : List Char) :
    Join [String.mk (c :: t), ""] = String.mk (cleanChars (c :: (t ++ ['/']))) := by
  have hne : (String.mk (c :: t)) ≠ "" := by
    intro h
    have := congrArg String.data h
    simp at this
  simp only [Join, if_pos hne, Clean, stringsJoin]
  congr 1
  simp [String.data_append, slash_data]

theorem ValidPath_mk (t : List Char) (ht : t ≠ ['.']) :
    ValidPath (String.mk t) = validPathLoop [] t := by
  unfold ValidPath
  rw [if_neg]
  intro h
  exact ht (congrArg String.data h)

theorem resultingPath_of_valid (P : String) (hv : ValidPath (TrimPrefix P "/") = true)
    (hne : P ≠ "/.") : resultingPath P "" = TrimPrefix P "/" := by
  obtain ⟨l⟩ := P
  unfold resultingPath
  cases l with
  | nil =>
    rw [TrimPrefix_slash_nil] at hv
    simp [ValidPath, validPathLoop, badElem] at hv
  | cons c t =>
    rw [Join_pair_empty_cons]
    by_cases hc : c = '/'
    · subst hc
      rw [TrimPrefix_slash_cons] at hv ⊢
      have ht : t ≠ ['.'] := by
        intro h; subst h; exact hne rfl
      rw [ValidPath_mk t ht] at hv
      have h := (cleanLoop_valid true 1 t).2 ['/'] hv (by simp)
      simp at h
      simp only [cleanChars]
      simp [h, TrimPrefix_slash_cons]
    · rw [TrimPrefix_slash_other c t hc] at hv ⊢
      by_cases hd : c :: t = ['.']
      · simp only [List.cons.injEq] at hd
        obtain ⟨h1, h2⟩ := hd
        subst h1 h2
        decide
      · rw [ValidPath_mk _ hd] at hv
        have h := (cleanLoop_valid false 0 (c :: t)).2 [] hv (by simp)
        simp at h
        simp only [cleanChars]
        simp [hc, h, TrimPrefix_slash_other c t hc]

theorem backtrack_le (buf : List Char) (dd w : Nat) : backtrack buf dd w ≤ w := by
  induction w with
  | zero => simp [backtrack]
  | succ w ih =>
    unfold backtrack
    split
    · omega
    · omega

theorem le_backtrack (buf : List Char) (dd w : Nat) (h : dd ≤ w) : dd ≤ backtrack buf dd w := by
  induction w with
  | zero => simp [backtrack]; omega
  | succ w ih =>
    unfold backtrack
    split
    · rename_i hc
      exact ih (by omega)
    · exact h

theorem dotdotLed_take (out : List Char) (k : Nat) (h : dotdotLed out) (hk : 2 ≤ k) :
    dotdotLed (out.take k) := by
  obtain ⟨tl, rfl, htl⟩ := h
  obtain ⟨j, rfl⟩ : ∃ j, k = j + 2 := ⟨k - 2, by omega⟩
  refine ⟨tl.take j, by simp [List.take], ?_⟩
  rcases htl with h | h
  · left; simp [h]
  · cases j with
    | zero => left; simp
    | succ j =>
      right
      cases tl with
      | nil => simp at h
      | cons a tl => simpa using h

theorem dotdotLed_append (out : List Char) (c : Char) (h : dotdotLed out) (hl : 3 ≤ out.length) :
    dotdotLed (out ++ [c]) := by
  obtain ⟨tl, rfl, htl⟩ := h
  refine ⟨tl ++ [c], by simp, ?_⟩
  right
  cases tl with
  | nil => simp at hl
  | cons a tl =>
    rcases htl with h | h
    · simp at h
    · simpa using h

theorem dotdotLed_append_slash (out : List Char) (h : dotdotLed out) :
    dotdotLed (out ++ ['/']) := by
  obtain ⟨tl, rfl, htl⟩ := h
  refine ⟨tl ++ ['/'], by simp, ?_⟩
  right
  cases tl with
  | nil => simp
  | cons a tl =>
    rcases htl with h | h
    · simp at h
    · simpa using h

theorem dotdotLed_length (out : List Char) (h : dotdotLed out) : 2 ≤ out.length := by
  obtain ⟨tl, rfl, _⟩ := h
  simp

theorem cleanLoop_dotdotLed (n : Nat) : ∀ (rest : List Char), rest.length ≤ n →
    ∀ (copying : Bool) (out : List Char) (dd : Nat), dotdotLed out →
      (copying = true → 3 ≤ out.length) → 2 ≤ dd → dd ≤ out.length →
      dotdotLed (cleanLoop false copying rest out dd) := by
  induction n with
  | zero =>
    intro rest hlen copying out dd hout _ _ _
    have : rest = [] := List.length_eq_zero.mp (by omega)
    subst this
    rw [cleanLoop.eq_1]
    exact hout
  | succ n ih =>
    intro rest hlen copying out dd hout hcopy hdd hddle
    cases rest with
    | nil => rw [cleanLoop.eq_1]; exact hout
    | cons c rest =>
      have hlen1 : rest.length ≤ n := by simpa using hlen
      cases copying with
      | true =>
        rw [cleanLoop_true_cons]
        split
        · exact ih rest hlen1 false out dd hout (by simp) hdd hddle
        · exact ih rest hlen1 true (out ++ [c]) dd (dotdotLed_append out c hout (hcopy rfl))
            (by intro _; simp; have := hcopy rfl; omega) hdd (by simp; omega)
      | false =>
        rw [cleanLoop.eq_def]
        simp only
        split
        · exact ih rest hlen1 false out dd hout (by simp) hdd hddle
        · split
          · exact ih rest hlen1 false out dd hout (by simp) hdd hddle
          · split
            · cases rest with
              | nil => exact hout
              | cons d rest2 =>
                have hlen2 : rest2.length ≤ n := by simp at hlen1; omega
                simp only
                split
                · rename_i hlt
                  have h1 := backtrack_le out dd (out.length - 1)
                  have h2 := le_backtrack out dd (out.length - 1) (by omega)
                  refine ih rest2 hlen2 false _ dd (dotdotLed_take out _ hout (by omega))
                    (by simp) hdd ?_
                  rw [List.length_take]
                  omega
                · have hl := dotdotLed_length out hout
                  simp only [Bool.not_false, if_true]
                  rw [if_pos (by omega)]
                  refine ih rest2 hlen2 false _ _ ?_ (by simp) (by simp) (le_refl _)
                  obtain ⟨tl, rfl, htl⟩ := hout
                  refine ⟨tl ++ ['/', '.', '.'], by simp, ?_⟩
                  right
                  cases tl with
                  | nil => simp
                  | cons a tl =>
                    rcases htl with h | h
                    · simp at h
                    · simpa using h
            · have hl := dotdotLed_length out hout
              have hcond : (false = true ∧ out.length ≠ 1) ∨ ((!false) = true ∧ out.length ≠ 0) := by
                right; exact ⟨rfl, by omega⟩
              rw [if_pos hcond]
              refine ih rest hlen1 true _ dd
                (dotdotLed_append _ c (dotdotLed_append_slash out hout) (by simp; omega))
                (by intro _; simp; omega) hdd (by simp; omega)

theorem cleanChars_dotdotLed (tl : List Char) (h : tl ≠ [] → tl.head? = some '/')
    (hne : tl ≠ []) : dotdotLed (cleanChars ('.' :: '.' :: tl)) := by
  cases tl with
  | nil => exact absurd rfl hne
  | cons a tl =>
    have ha : a = '/' := by simpa using h hne
    subst ha
    have hstep : cleanLoop false false ('.' :: '.' :: '/' :: tl) [] 0 =
        cleanLoop false false ('/' :: tl) ['.', '.'] 2 := by
      rw [cleanLoop.eq_def]
      simp
    have hinv := cleanLoop_dotdotLed ('/' :: tl).length ('/' :: tl) (le_refl _) false
      ['.', '.'] 2 ⟨[], rfl, Or.inl rfl⟩ (by simp) (le_refl _) (by simp)
    have hl := dotdotLed_length _ hinv
    simp only [cleanChars]
    rw [show (('.' : Char) == '/') = false by decide]
    simp only [Bool.false_eq_true, if_false, hstep]
    rw [if_neg (by omega)]
    exact hinv

theorem ValidPath_dotdotLed (l : List Char) (h : dotdotLed l) :
    ValidPath (TrimPrefix (String.mk l) "/") = false := by
  obtain ⟨tl, rfl, htl⟩ := h
  rw [TrimPrefix_slash_other _ _ (by decide)]
  rw [ValidPath_mk _ (by simp)]
  rcases htl with h | h
  · subst h; decide
  · cases tl with
    | nil => simp at h
    | cons a tl =>
      simp at h
      subst h
      simp [validPathLoop, badElem]

theorem stringsJoin_pair (a b : String) : stringsJoin [a, b] "/" = a ++ "/" ++ b := by
  simp [stringsJoin]

/-- Every candidate derived from a path whose first element is `..` is
refused by `fs.ValidPath`, whatever the index name. -/
theorem resultingPath_dotdot_invalid (path index : String) (h : dotdotLed path.data) :
    ValidPath (resultingPath path index) = false := by
  obtain ⟨l⟩ := path
  obtain ⟨tl, hl, htl⟩ := h
  simp only at hl
  subst hl
  have hne : (String.mk ('.' :: '.' :: tl)) ≠ "" := by
    intro h
    have := congrArg String.data h
    simp at this
  unfold resultingPath
  simp only [Join, if_pos hne, Clean, stringsJoin_pair]
  apply ValidPath_dotdotLed
  have hd : (String.mk ('.' :: '.' :: tl) ++ "/" ++ index).data =
      '.' :: '.' :: (tl ++ '/' :: index.data) := by
    simp [String.data_append, slash_data]
  rw [hd]
  apply cleanChars_dotdotLed
  · intro _
    rcases htl with h | h
    · subst h; simp
    · cases tl with
      | nil => simp
      | cons a tl => simpa using h
  · simp

/-! ## Lemmas on the rewrite hook -/

theorem rewriteLoop_cons (fileSystem : FS) (path index : String) (rest : List String) :
    rewriteLoop fileSystem path (index :: rest) =
      if ValidPath (resultingPath path index) = true then
        if (fileSystem.stat (resultingPath path index) == none ||
            !errorsIs (fileSystem.stat (resultingPath path index)) FsError.ErrNotExist) = true then
          (some path, [resultingPath path index])
        else
          ((rewriteLoop fileSystem path rest).1,
            resultingPath path index :: (rewriteLoop fileSystem path rest).2)
      else rewriteLoop fileSystem path rest := by
  by_cases hv : ValidPath (resultingPath path index) = true <;> simp [rewriteLoop, hv]

theorem rewriteLoop_fst (fileSystem : FS) (path : String) (indexes : List String) :
    (rewriteLoop fileSystem path indexes).1 = some path ∨
      (rewriteLoop fileSystem path indexes).1 = none := by
  induction indexes with
  | nil => right; rfl
  | cons index rest ih =>
    rw [rewriteLoop_cons]
    split
    · split
      · left; rfl
      · exact ih
    · exact ih

theorem errorsIs_notExist_ne_none (err : Option FsError)
    (h : errorsIs err FsError.ErrNotExist = true) : (err == none) = false := by
  cases err with
  | none => simp [errorsIs] at h
  | some e => rfl

theorem rewriteLoop_none_iff (fileSystem : FS) (path : String) (indexes : List String) :
    (rewriteLoop fileSystem path indexes).1 = none ↔
      ∀ index ∈ indexes, isMiss fileSystem (resultingPath path index) = true := by
  induction indexes with
  | nil => simp [rewriteLoop]
  | cons index rest ih =>
    rw [rewriteLoop_cons]
    by_cases hv : ValidPath (resultingPath path index) = true
    · by_cases hm : errorsIs (fileSystem.stat (resultingPath path index)) FsError.ErrNotExist = true
      · have hn := errorsIs_notExist_ne_none _ hm
        simp [hv, hm, hn, ih, isMiss]
      · simp [hv, hm, isMiss]
    · simp [hv, ih, isMiss]

theorem rewriteLoop_some_of_hit (fileSystem : FS) (path : String) (indexes : List String)
    (index : String) (hmem : index ∈ indexes)
    (hhit : isMiss fileSystem (resultingPath path index) = false) :
    (rewriteLoop fileSystem path indexes).1 = some path := by
  rcases rewriteLoop_fst fileSystem path indexes with h | h
  · exact h
  · have := (rewriteLoop_none_iff fileSystem path indexes).1 h index hmem
    rw [hhit] at this
    exact absurd this (by decide)

theorem rewriteLoop_calls_valid (fileSystem : FS) (path : String) (indexes : List String) :
    ∀ name ∈ (rewriteLoop fileSystem path indexes).2, ValidPath name = true := by
  induction indexes with
  | nil => simp [rewriteLoop]
  | cons index rest ih =>
    rw [rewriteLoop_cons]
    by_cases hv : ValidPath (resultingPath path index) = true
    · simp only [hv, if_true]
      split
      · intro name hname
        simp at hname
        rw [hname]; exact hv
      · intro name hname
        simp only [List.mem_cons] at hname
        rcases hname with h | h
        · rw [h]; exact hv
        · exact ih name h
    · simp only [hv, Bool.false_eq_true, if_false]
      exact ih

theorem pathRewriteToRoot_of_hit (fileSystem : FS) (IndexNames : List String)
    (orig : Option PathRewriteFunc) (ctx : RequestCtx) (index : String)
    (hmem : index ∈ "" :: IndexNames)
    (hhit : isMiss fileSystem (resultingPath (startPath orig ctx) index) = false) :
    pathRewriteToRoot fileSystem IndexNames orig ctx = startPath orig ctx := by
  have h := rewriteLoop_some_of_hit fileSystem (startPath orig ctx) ("" :: IndexNames) index hmem hhit
  simp only [pathRewriteToRoot, pathRewriteToRootTrace, h]

theorem pathRewriteToRoot_of_miss (fileSystem : FS) (IndexNames : List String)
    (orig : Option PathRewriteFunc) (ctx : RequestCtx)
    (hmiss : ∀ index ∈ "" :: IndexNames,
      isMiss fileSystem (resultingPath (startPath orig ctx) index) = true) :
    pathRewriteToRoot fileSystem IndexNames orig ctx = "/" := by
  have h := (rewriteLoop_none_iff fileSystem (startPath orig ctx) ("" :: IndexNames)).2 hmiss
  simp only [pathRewriteToRoot, pathRewriteToRootTrace, h]

theorem statCalls_valid (fileSystem : FS) (IndexNames : List String)
    (orig : Option PathRewriteFunc) (ctx : RequestCtx) :
    ∀ name ∈ statCalls fileSystem IndexNames orig ctx, ValidPath name = true := by
  intro name hname
  have h := rewriteLoop_calls_valid fileSystem (startPath orig ctx) ("" :: IndexNames) name
  apply h
  simp only [statCalls, pathRewriteToRootTrace] at hname
  split at hname <;> exact hname

theorem rewriteLoop_all_invalid (fileSystem : FS) (path : String) (indexes : List String)
    (h : ∀ index ∈ indexes, ValidPath (resultingPath path index) = false) :
    rewriteLoop fileSystem path indexes = (none, []) := by
  induction indexes with
  | nil => rfl
  | cons index rest ih =>
    rw [rewriteLoop_cons, h index (List.mem_cons_self _ _)]
    simp only [Bool.false_eq_true, if_false]
    exact ih (fun i hi => h i (List.mem_cons_of_mem _ hi))

theorem isMiss_of_existsIn (fileSystem : FS) (name : String) (h : existsIn fileSystem name) :
    isMiss fileSystem name = false := by
  simp [isMiss, h.1, h.2, errorsIs]

/-! ## Lemmas on the materialization -/

theorem Disk.put_same (disk : Disk) (p : List String) (node : DNode) :
    disk.put p node p = some node := by
  simp [Disk.put]

theorem Disk.put_other (disk : Disk) (p q : List String) (node : DNode) (h : q ≠ p) :
    disk.put p node q = disk q := by
  simp [Disk.put, h]

theorem framed_trans (target : List String) (d0 d1 d2 : Disk) (q : List String)
    (h1 : framed target d0 d1 q) (h2 : framed target d1 d2 q) : framed target d0 d2 q := by
  rcases h2 with h2 | ⟨h2, ht⟩
  · rcases h1 with h1 | h1
    · left; rw [h2, h1]
    · right; exact h1
  · rcases h1 with h1 | h1
    · right; exact ⟨by rw [← h1]; exact h2, ht⟩
    · right; exact h1

theorem mkdirAllFrom_ok (mode : Nat) (rest : List String) :
    ∀ (pre : List String) (disk d : Disk), mkdirAllFrom mode pre rest disk = Except.ok d →
      (∃ m, d (pre ++ rest) = some (DNode.dir m)) ∧
      ∀ q, framed (pre ++ rest) disk d q := by
  induction rest with
  | nil =>
    intro pre disk d h
    unfold mkdirAllFrom at h
    rw [List.append_nil]
    cases hp : disk pre with
    | none =>
      rw [hp] at h
      simp only [Except.ok.injEq] at h
      subst h
      refine ⟨⟨mode, Disk.put_same _ _ _⟩, fun q => ?_⟩
      by_cases hq : q = pre
      · right; subst hq; exact ⟨hp, [], by simp⟩
      · left; exact Disk.put_other _ _ _ _ hq
    | some node =>
      rw [hp] at h
      cases node with
      | dir m =>
        simp only [Except.ok.injEq] at h
        subst h
        exact ⟨⟨m, hp⟩, fun q => Or.inl rfl⟩
      | file m c => simp at h
  | cons name rest ih =>
    intro pre disk d h
    unfold mkdirAllFrom at h
    have happ : pre ++ name :: rest = (pre ++ [name]) ++ rest := by simp
    cases hp : disk pre with
    | none =>
      rw [hp] at h
      simp only at h
      obtain ⟨hd, hf⟩ := ih _ _ _ h
      rw [happ]
      refine ⟨hd, fun q => ?_⟩
      by_cases hq : q = pre
      · right; subst hq; exact ⟨hp, [name] ++ rest, by simp⟩
      · have := hf q
        rw [framed, Disk.put_other _ _ _ _ hq] at this
        exact this
    | some node =>
      rw [hp] at h
      cases node with
      | dir m =>
        simp only at h
        obtain ⟨hd, hf⟩ := ih _ _ _ h
        rw [happ]
        exact ⟨hd, hf⟩
      | file m c => simp at h

theorem MkdirAll_ok (faults : Faults) (p : List String) (perm : Nat) (disk d : Disk)
    (h : MkdirAll faults p perm disk = Except.ok d) :
    (∃ m, d p = some (DNode.dir m)) ∧ ∀ q, framed p disk d q := by
  unfold MkdirAll at h
  cases hf : faults.mkdirAll p with
  | some e => rw [hf] at h; simp at h
  | none =>
    rw [hf] at h
    simpa using mkdirAllFrom_ok _ p [] disk d h

theorem OpenFile_ok (faults : Faults) (p : List String) (perm : Nat) (disk d : Disk)
    (h : OpenFile faults p perm disk = Except.ok d) (hnone : disk p = none) :
    d = disk.put p (DNode.file (createMode faults.umask perm) []) := by
  unfold OpenFile at h
  cases hf : faults.openFile p with
  | some e => rw [hf] at h; simp at h
  | none =>
    rw [hf, hnone] at h
    simp only at h
    cases hpar : disk p.dropLast with
    | none => rw [hpar] at h; simp at h
    | some node =>
      rw [hpar] at h
      cases node with
      | dir m => simp only [Except.ok.injEq] at h; exact h.symm
      | file m c => simp at h

theorem OpenFile_dir (faults : Faults) (p : List String) (perm m : Nat) (disk : Disk)
    (hdir : disk p = some (DNode.dir m)) :
    ∃ e, OpenFile faults p perm disk = Except.error e := by
  unfold OpenFile
  cases hf : faults.openFile p with
  | some e => exact ⟨e, rfl⟩
  | none => simp [hdir]

theorem copyEntry_dir_ok (faults : Faults) (cfg : Config) (rootDir path : List String)
    (entries : VEntries) (disk : Disk)
    (h : (copyEntry faults cfg rootDir path (VNode.dir entries) none disk).err = none) :
    (∃ m, (copyEntry faults cfg rootDir path (VNode.dir entries) none disk).disk
        (rootDir ++ path) = some (DNode.dir m)) ∧
    ∀ q, framed (rootDir ++ path) disk
      (copyEntry faults cfg rootDir path (VNode.dir entries) none disk).disk q := by
  unfold copyEntry at h ⊢
  simp only at h ⊢
  cases hm : MkdirAll faults (rootDir ++ path) cfg.TempFilesPerm disk with
  | error e => rw [hm] at h; simp at h
  | ok d =>
    simp only
    exact MkdirAll_ok _ _ _ _ _ hm

theorem copyEntry_file_ok (faults : Faults) (cfg : Config) (rootDir path : List String)
    (content : List Nat) (disk : Disk)
    (hpre : disk (rootDir ++ path) = none ∨ ∃ m, disk (rootDir ++ path) = some (DNode.dir m))
    (h : (copyEntry faults cfg rootDir path (VNode.file content) none disk).err = none) :
    (copyEntry faults cfg rootDir path (VNode.file content) none disk).disk (rootDir ++ path) =
      some (DNode.file (createMode faults.umask cfg.TempFilesPerm) content) ∧
    ∀ q, q ≠ rootDir ++ path →
      (copyEntry faults cfg rootDir path (VNode.file content) none disk).disk q = disk q := by
  unfold copyEntry at h ⊢
  simp only at h ⊢
  cases ho : OpenFile faults (rootDir ++ path) cfg.TempFilesPerm disk with
  | error e => rw [ho] at h; simp at h
  | ok d =>
    rcases hpre with hnone | ⟨m, hdir⟩
    · have hd := OpenFile_ok _ _ _ _ _ ho hnone
      rw [ho] at h
      simp only at h ⊢
      cases hs : faults.openSrc path with
      | some e => rw [hs] at h; simp at h
      | none =>
        rw [hs] at h
        simp only at h ⊢
        cases hc : faults.copy path with
        | some ne => rw [hc] at h; simp at h
        | none =>
          simp only
          subst hd
          constructor
          · simp [writeFile, Disk.put]
          · intro q hq
            simp [writeFile, Disk.put, hq]
    · obtain ⟨e, he⟩ := OpenFile_dir faults (rootDir ++ path) cfg.TempFilesPerm m disk hdir
      rw [he] at ho
      simp at ho

theorem append_singleton_split (q t A : List String) (n : String) (h : A ++ [n] = q ++ t) :
    q = A ++ [n] ∨ ∃ t1, A = q ++ t1 := by
  rcases List.eq_nil_or_concat t with ht | ⟨t1, x, ht⟩
  · left; subst ht; simpa using h.symm
  · right
    subst ht
    rw [List.concat_eq_append, ← List.append_assoc] at h
    have := List.append_inj_left' h (by simp)
    exact ⟨t1, this⟩

theorem append_cons_ne_prefix (A t t1 : List String) (n : String) :
    A ≠ (A ++ n :: t) ++ t1 := by
  intro h
  have := congrArg List.length h
  simp at this

mutual
theorem walkDir_ok (faults : Faults) (cfg : Config) (rootDir : List String) :
    ∀ (node : VNode) (name : List String) (disk : Disk), node.distinctNames = true →
      (∀ t, t ≠ [] → disk (rootDir ++ (name ++ t)) = none) →
      (disk (rootDir ++ name) = none ∨ ∃ m, disk (rootDir ++ name) = some (DNode.dir m)) →
      (walkDir faults cfg rootDir name node disk).err = none →
      (∀ p node1, node.lookup p = some node1 →
        mirrors (createMode faults.umask cfg.TempFilesPerm) node1
          ((walkDir faults cfg rootDir name node disk).disk (rootDir ++ (name ++ p)))) ∧
      (∀ q, (∀ t, q ≠ rootDir ++ (name ++ t)) →
        framed (rootDir ++ name) disk (walkDir faults cfg rootDir name node disk).disk q)
  | VNode.file content, name, disk, _, _, hpre, herr => by
    unfold walkDir at herr ⊢
    obtain ⟨hfile, hframe⟩ := copyEntry_file_ok faults cfg rootDir name content disk hpre herr
    constructor
    · intro p node1 hl
      cases p with
      | nil =>
        simp only [VNode.lookup, Option.some.injEq] at hl
        subst hl
        simpa [mirrors] using hfile
      | cons a p => simp [VNode.lookup] at hl
    · intro q hq
      left
      exact hframe q (by simpa using hq [])
  | VNode.dir entries, name, disk, hdist, hfresh, _, herr => by
    unfold walkDir at herr ⊢
    cases hc : (copyEntry faults cfg rootDir name (VNode.dir entries) none disk).err with
    | some e => rw [hc] at herr; simp at herr
    | none =>
      rw [hc] at herr
      simp only at herr ⊢
      obtain ⟨⟨m, hdir⟩, hframe0⟩ := copyEntry_dir_ok faults cfg rootDir name entries disk hc
      cases hr : faults.readDir name with
      | some e => rw [hr] at herr; simp [copyEntry] at herr
      | none =>
        rw [hr] at herr
        simp only at herr ⊢
        have hpre1 : ∀ n ∈ entries.names, ∀ t,
            (copyEntry faults cfg rootDir name (VNode.dir entries) none disk).disk
              (rootDir ++ (name ++ n :: t)) = none := by
          intro n _ t
          rcases hframe0 (rootDir ++ (name ++ n :: t)) with h | ⟨_, t1, ht1⟩
          · rw [h]; exact hfresh (n :: t) (by simp)
          · exfalso
            have := append_cons_ne_prefix (rootDir ++ name) t t1 n
            apply this
            simp at ht1
        obtain ⟨hpost, hframe1⟩ := walkEntries_ok faults cfg rootDir entries name _
          (by simpa [VNode.distinctNames] using hdist) hpre1 herr
        constructor
        · intro p node1 hl
          cases p with
          | nil =>
            simp only [VNode.lookup, Option.some.injEq] at hl
            subst hl
            refine ⟨m, ?_⟩
            rw [List.append_nil]
            rcases hframe1 (rootDir ++ name) (by
              intro n _ t h
              have := congrArg List.length h
              simp at this) with h | ⟨h, _⟩
            · rw [h]; exact hdir
            · rw [hdir] at h; simp at h
          | cons a p =>
            simp only [VNode.lookup] at hl
            exact hpost a p node1 hl
        · intro q hq
          apply framed_trans _ _ _ _ _ (hframe0 q)
          exact hframe1 q (fun n _ t => hq (n :: t))
theorem walkEntries_ok (faults : Faults) (cfg : Config) (rootDir : List String) :
    ∀ (entries : VEntries) (name : List String) (disk : Disk), entries.distinctNames = true →
      (∀ n ∈ entries.names, ∀ t, disk (rootDir ++ (name ++ n :: t)) = none) →
      (walkEntries faults cfg rootDir name entries disk).err = none →
      (∀ n p node1, entries.lookup n p = some node1 →
        mirrors (createMode faults.umask cfg.TempFilesPerm) node1
          ((walkEntries faults cfg rootDir name entries disk).disk
            (rootDir ++ (name ++ n :: p)))) ∧
      (∀ q, (∀ n ∈ entries.names, ∀ t, q ≠ rootDir ++ (name ++ n :: t)) →
        framed (rootDir ++ name) disk (walkEntries faults cfg rootDir name entries disk).disk q)
  | VEntries.nil, name, disk, _, _, _ => by
    unfold walkEntries
    constructor
    · intro n p node1 hl
      simp [VEntries.lookup] at hl
    · intro q _
      left; rfl
  | VEntries.cons entryName node rest, name, disk, hdist, hfresh, herr => by
    unfold walkEntries at herr ⊢
    simp only [VEntries.distinctNames, Bool.and_eq_true, decide_eq_true_eq] at hdist
    obtain ⟨⟨hnotin, hdnode⟩, hdrest⟩ := hdist
    cases hw : (walkDir faults cfg rootDir (name ++ [entryName]) node disk).err with
    | some e => rw [hw] at herr; simp at herr
    | none =>
      rw [hw] at herr
      simp only at herr ⊢
      obtain ⟨hpost1, hframe1⟩ := walkDir_ok faults cfg rootDir node (name ++ [entryName]) disk
        hdnode
        (by
          intro t _
          have := hfresh entryName (by simp [VEntries.names]) t
          simpa using this)
        (by
          left
          have := hfresh entryName (by simp [VEntries.names]) []
          simpa using this)
        hw
      have hne : ∀ n ∈ rest.names, ∀ t t1 : List String,
          rootDir ++ (name ++ n :: t) ≠ rootDir ++ (name ++ [entryName] ++ t1) := by
        intro n hn t t1 h
        simp at h
        exact hnotin (h.1 ▸ hn)
      have hpre2 : ∀ n ∈ rest.names, ∀ t,
          (walkDir faults cfg rootDir (name ++ [entryName]) node disk).disk
            (rootDir ++ (name ++ n :: t)) = none := by
        intro n hn t
        rcases hframe1 (rootDir ++ (name ++ n :: t)) (hne n hn t) with h | ⟨_, t1, ht1⟩
        · rw [h]; exact hfresh n (by simp [VEntries.names, hn]) t
        · exfalso
          simp at ht1
          exact hnotin (ht1.1 ▸ hn)
      obtain ⟨hpost2, hframe2⟩ := walkEntries_ok faults cfg rootDir rest name _ hdrest hpre2 herr
      constructor
      · intro n p node1 hl
        simp only [VEntries.lookup] at hl
        by_cases hn : n = entryName
        · subst hn
          simp only [if_true] at hl
          have hm := hpost1 p node1 hl
          have heq : rootDir ++ (name ++ [n] ++ p) = rootDir ++ (name ++ n :: p) := by simp
          rw [heq] at hm
          rcases hframe2 (rootDir ++ (name ++ n :: p)) (by
            intro n2 hn2 t h
            simp at h
            exact hnotin (h.1 ▸ hn2)) with h | ⟨h, _⟩
          · rw [h]; exact hm
          · rw [h] at hm
            cases node1 <;> simp [mirrors] at hm
        · simp only [if_neg hn] at hl
          exact hpost2 n p node1 hl
      · intro q hq
        have h1 : framed (rootDir ++ name) disk
            (walkDir faults cfg rootDir (name ++ [entryName]) node disk).disk q := by
          rcases hframe1 q (by
            intro t h
            apply hq entryName (by simp [VEntries.names]) t
            simpa using h) with h | ⟨h, t, ht⟩
          · left; exact h
          · right
            refine ⟨h, ?_⟩
            have hsplit := append_singleton_split q t (rootDir ++ name) entryName
              (by simpa using ht)
            rcases hsplit with hs | hs
            · exfalso
              apply hq entryName (by simp [VEntries.names]) []
              simpa using hs
            · exact hs
        apply framed_trans _ _ _ _ _ h1
        exact hframe2 q (fun n hn t => hq n (by simp [VEntries.names, hn]) t)
end

theorem stops_prepend (err : Option FsError) (s1 s2 : List Step)
    (h1 : ∀ s ∈ s1, s.err = none) (h2 : stopsAtFirstError err s2) :
    stopsAtFirstError err (s1 ++ s2) := by
  cases err with
  | none =>
    intro s hs
    rcases List.mem_append.1 hs with h | h
    · exact h1 s h
    · exact h2 s h
  | some e =>
    obtain ⟨pre, last, hsteps, hlast, hpre⟩ := h2
    refine ⟨s1 ++ pre, last, by rw [hsteps, List.append_assoc], hlast, ?_⟩
    intro s hs
    rcases List.mem_append.1 hs with h | h
    · exact h1 s h
    · exact hpre s h

theorem copyEntry_stops (faults : Faults) (cfg : Config) (rootDir path : List String)
    (entry : VNode) (disk : Disk) :
    stopsAtFirstError (copyEntry faults cfg rootDir path entry none disk).err
      (copyEntry faults cfg rootDir path entry none disk).steps := by
  unfold copyEntry
  simp only
  cases entry with
  | dir entries =>
    simp only
    cases MkdirAll faults (rootDir ++ path) cfg.TempFilesPerm disk with
    | error e => exact ⟨[], _, rfl, rfl, by simp⟩
    | ok d => simp [stopsAtFirstError]
  | file content =>
    simp only
    cases OpenFile faults (rootDir ++ path) cfg.TempFilesPerm disk with
    | error e => exact ⟨[], _, rfl, rfl, by simp⟩
    | ok d =>
      simp only
      cases faults.openSrc path with
      | some e => exact ⟨[_], _, rfl, rfl, by simp⟩
      | none =>
        simp only
        cases faults.copy path with
        | some ne => exact ⟨[_, _], _, rfl, rfl, by simp⟩
        | none => simp [stopsAtFirstError]

theorem stops_none (steps : List Step) (h : stopsAtFirstError none steps) :
    ∀ s ∈ steps, s.err = none := h

mutual
theorem walkDir_stops (faults : Faults) (cfg : Config) (rootDir : List String) :
    ∀ (node : VNode) (name : List String) (disk : Disk),
      stopsAtFirstError (walkDir faults cfg rootDir name node disk).err
        (walkDir faults cfg rootDir name node disk).steps
  | VNode.file content, name, disk => by
    unfold walkDir
    exact copyEntry_stops faults cfg rootDir name (VNode.file content) disk
  | VNode.dir entries, name, disk => by
    have h0 := copyEntry_stops faults cfg rootDir name (VNode.dir entries) disk
    unfold walkDir
    cases hc : (copyEntry faults cfg rootDir name (VNode.dir entries) none disk).err with
    | some e =>
      simp only
      rw [hc] at h0
      exact h0
    | none =>
      rw [hc] at h0
      simp only
      cases hr : faults.readDir name with
      | some e =>
        simp only
        exact ⟨_, _, rfl, rfl, h0⟩
      | none =>
        simp only
        have h2 := walkEntries_stops faults cfg rootDir entries name
          (copyEntry faults cfg rootDir name (VNode.dir entries) none disk).disk
        have := stops_prepend _
          ((copyEntry faults cfg rootDir name (VNode.dir entries) none disk).steps ++
            [{ op := Op.readDir, path := name, err := none }]) _
          (by
            intro s hs
            rcases List.mem_append.1 hs with h | h
            · exact h0 s h
            · simp at h; rw [h]) h2
        simpa using this
theorem walkEntries_stops (faults : Faults) (cfg : Config) (rootDir : List String) :
    ∀ (entries : VEntries) (name : List String) (disk : Disk),
      stopsAtFirstError (walkEntries faults cfg rootDir name entries disk).err
        (walkEntries faults cfg rootDir name entries disk).steps
  | VEntries.nil, name, disk => by
    unfold walkEntries
    simp [stopsAtFirstError]
  | VEntries.cons entryName node rest, name, disk => by
    have h1 := walkDir_stops faults cfg rootDir node (name ++ [entryName]) disk
    unfold walkEntries
    cases hw : (walkDir faults cfg rootDir (name ++ [entryName]) node disk).err with
    | some e =>
      simp only
      rw [hw] at h1
      exact h1
    | none =>
      rw [hw] at h1
      simp only
      exact stops_prepend _ _ _ h1
        (walkEntries_stops faults cfg rootDir rest name
          (walkDir faults cfg rootDir (name ++ [entryName]) node disk).disk)
end

theorem copyFSToDisk_stops (faults : Faults) (cfg : Config) (fileSystem : VNode)
    (rootDir : List String) (disk : Disk) :
    stopsAtFirstError (copyFSToDisk faults cfg fileSystem rootDir disk).err
      (copyFSToDisk faults cfg fileSystem rootDir disk).steps := by
  unfold copyFSToDisk WalkDir
  cases faults.statRoot with
  | some e => exact ⟨[], _, rfl, rfl, by simp⟩
  | none =>
    simp only
    have := stops_prepend _ [{ op := Op.stat, path := [], err := none }] _ (by simp)
      (walkDir_stops faults cfg rootDir fileSystem [] disk)
    simpa using this

theorem copyFSToDisk_mirrors (faults : Faults) (cfg : Config) (fileSystem : VNode)
    (rootDir : List String) (disk : Disk)
    (hdist : fileSystem.distinctNames = true)
    (hroot : ∃ m, disk rootDir = some (DNode.dir m))
    (hfresh : ∀ t, t ≠ [] → disk (rootDir ++ t) = none)
    (herr : (copyFSToDisk faults cfg fileSystem rootDir disk).err = none) :
    ∀ p node, fileSystem.lookup p = some node →
      mirrors (createMode faults.umask cfg.TempFilesPerm) node
        ((copyFSToDisk faults cfg fileSystem rootDir disk).disk (rootDir ++ p)) := by
  unfold copyFSToDisk WalkDir at herr ⊢
  cases hs : faults.statRoot with
  | some e => rw [hs] at herr; simp at herr
  | none =>
    rw [hs] at herr
    simp only at herr ⊢
    have h := (walkDir_ok faults cfg rootDir fileSystem [] disk hdist
      (by simpa using hfresh) (by right; simpa using hroot) herr).1
    simpa using h

theorem createMode_eq (umask perm : Nat) (h1 : perm < 512) (h2 : perm &&& umask = 0) :
    createMode umask perm = perm := by
  unfold createMode
  rw [Nat.mod_eq_of_lt h1]
  apply Nat.eq_of_testBit_eq
  intro i
  have h3 := congrArg (fun n => Nat.testBit n i) h2
  simp only [Nat.testBit_and, Nat.zero_testBit] at h3
  rw [Nat.testBit_and, Nat.testBit_xor]
  have h511 : Nat.testBit 511 i = decide (i < 9) := by
    have : (511 : Nat) = 2 ^ 9 - 1 := by norm_num
    rw [this, Nat.testBit_two_pow_sub_one]
  have hmod : Nat.testBit (umask % 512) i = (decide (i < 9) && Nat.testBit umask i) := by
    have : (512 : Nat) = 2 ^ 9 := by norm_num
    rw [this, Nat.testBit_mod_two_pow]
  rw [h511, hmod]
  by_cases hi : i < 9
  · simp [hi]
    cases hp : perm.testBit i <;> cases hu : umask.testBit i <;> simp_all
  · have : perm.testBit i = false := by
      apply Nat.testBit_lt_two_pow
      calc perm < 512 := h1
        _ = 2 ^ 9 := by norm_num
        _ ≤ 2 ^ i := Nat.pow_le_pow_right (by norm_num) (by omega)
    simp [hi, this]

/-! ## Claims on the rewrite hook -/

/-- C1 (as stated, refuted): in the scenario tree `/about` is not a file,
`about/index.html` exists and `index.html` is an index name, yet the hook
returns `/about`, not `about/index.html`. -/
theorem C1_index_match_counterexample :
    "index.html" ∈ ["index.html"] ∧
    (scenarioVTree.lookup ["about"]).map VNode.IsDir = some true ∧
    resultingPath "/about" "index.html" = "about/index.html" ∧
    existsIn scenarioTree (resultingPath "/about" "index.html") ∧
    pathRewriteToRoot scenarioTree ["index.html"] none ⟨"/about"⟩ = "/about" ∧
    pathRewriteToRoot scenarioTree ["index.html"] none ⟨"/about"⟩ ≠ "about/index.html" ∧
    pathRewriteToRoot scenarioTree ["index.html"] none ⟨"/about"⟩ ≠
      Join ["/about", "index.html"] := by
  refine ⟨by decide, by decide, by decide, ⟨by decide, by decide⟩, by decide, by decide, by decide⟩

/-- C1 (amended): when the path `D` joined with a configured index name is a
valid path that exists in the tree, the hook returns `D` itself, unchanged;
the joined name is only what the existence check looks at. -/
theorem C1_index_match (fileSystem : FS) (IndexNames : List String)
    (orig : Option PathRewriteFunc) (ctx : RequestCtx) (index : String)
    (hindex : index ∈ IndexNames)
    (hexists : existsIn fileSystem (resultingPath (startPath orig ctx) index)) :
    pathRewriteToRoot fileSystem IndexNames orig ctx = startPath orig ctx :=
  pathRewriteToRoot_of_hit fileSystem IndexNames orig ctx index
    (List.mem_cons_of_mem _ hindex) (isMiss_of_existsIn _ _ hexists)

theorem C1_index_match_witness :
    pathRewriteToRoot scenarioTree ["index.html"] none ⟨"/about"⟩ = "/about" :=
  C1_index_match scenarioTree ["index.html"] none ⟨"/about"⟩ "index.html" (by decide)
    ⟨by decide, by decide⟩

/-- C2 (as stated, refuted): a custom rewrite returns `/.`; with the leading
slash trimmed this is `.`, the root, which exists in the tree; the hook
returns `/`, not `/.`. -/
theorem C2_exact_match_counterexample :
    existsIn scriptTree (TrimPrefix "/." "/") ∧
    startPath (some fun _ => "/.") ⟨"/"⟩ = "/." ∧
    pathRewriteToRoot scriptTree ["index.html"] (some fun _ => "/.") ⟨"/"⟩ = "/" ∧
    pathRewriteToRoot scriptTree ["index.html"] (some fun _ => "/.") ⟨"/"⟩ ≠ "/." := by
  refine ⟨⟨by decide, by decide⟩, by decide, by decide, by decide⟩

/-- C2 (amended): for every tree, index-name list and path `P` (the output of
the custom rewrite if any, else the request path) other than `/.` whose form
with the leading `/` trimmed exists in the tree, the hook returns `P`
unchanged. -/
theorem C2_exact_match (fileSystem : FS) (IndexNames : List String)
    (orig : Option PathRewriteFunc) (ctx : RequestCtx)
    (hexists : existsIn fileSystem (TrimPrefix (startPath orig ctx) "/"))
    (hne : startPath orig ctx ≠ "/.") :
    pathRewriteToRoot fileSystem IndexNames orig ctx = startPath orig ctx := by
  apply pathRewriteToRoot_of_hit fileSystem IndexNames orig ctx "" (List.mem_cons_self _ _)
  rw [resultingPath_of_valid _ hexists.1 hne]
  exact isMiss_of_existsIn _ _ hexists

theorem C2_exact_match_witness :
    pathRewriteToRoot scenarioTree ["index.html"] none ⟨"/index.html"⟩ = "/index.html" :=
  C2_exact_match scenarioTree ["index.html"] none ⟨"/index.html"⟩
    ⟨by decide, by decide⟩ (by decide)

/-- C3: when every existence check the hook makes (on the path and on the
path joined with each index name) reports "not found", the hook returns
exactly `/`. -/
theorem C3_miss (fileSystem : FS) (IndexNames : List String)
    (orig : Option PathRewriteFunc) (ctx : RequestCtx)
    (hmiss : ∀ index ∈ "" :: IndexNames,
      ValidPath (resultingPath (startPath orig ctx) index) = true →
      errorsIs (fileSystem.stat (resultingPath (startPath orig ctx) index))
        FsError.ErrNotExist = true) :
    pathRewriteToRoot fileSystem IndexNames orig ctx = "/" := by
  apply pathRewriteToRoot_of_miss
  intro index hindex
  have := hmiss index hindex
  unfold isMiss
  by_cases hv : ValidPath (resultingPath (startPath orig ctx) index) = true
  · simp [hv, this hv]
  · simp [hv]

theorem C3_miss_witness :
    pathRewriteToRoot scenarioTree ["index.html"] none ⟨"/missing"⟩ = "/" :=
  C3_miss scenarioTree ["index.html"] none ⟨"/missing"⟩ (by decide)

/-- C4: if some valid candidate fails its existence check with an error other
than "not found", the hook returns the path `P` and not the fallback; and the
loop ends without returning (the fallback `/`) only when every valid
candidate reports "not found". -/
theorem C4_other_errors (fileSystem : FS) (IndexNames : List String)
    (orig : Option PathRewriteFunc) (ctx : RequestCtx) :
    (∀ index ∈ "" :: IndexNames, ∀ e : FsError,
      ValidPath (resultingPath (startPath orig ctx) index) = true →
      fileSystem.stat (resultingPath (startPath orig ctx) index) = some e →
      e ≠ FsError.ErrNotExist →
      pathRewriteToRoot fileSystem IndexNames orig ctx = startPath orig ctx) ∧
    ((rewriteLoop fileSystem (startPath orig ctx) ("" :: IndexNames)).1 = none →
      ∀ index ∈ "" :: IndexNames,
        ValidPath (resultingPath (startPath orig ctx) index) = true →
        fileSystem.stat (resultingPath (startPath orig ctx) index) =
          some FsError.ErrNotExist) := by
  constructor
  · intro index hindex e hv hstat hne
    apply pathRewriteToRoot_of_hit fileSystem IndexNames orig ctx index hindex
    simp [isMiss, hv, hstat, errorsIs, hne]
  · intro hnone index hindex hv
    have h := (rewriteLoop_none_iff _ _ _).1 hnone index hindex
    simp only [isMiss, hv, Bool.not_true, Bool.false_or] at h
    cases hs : fileSystem.stat (resultingPath (startPath orig ctx) index) with
    | none => simp [hs, errorsIs] at h
    | some e =>
      simp only [hs, errorsIs, beq_iff_eq] at h
      rw [h]

theorem C4_other_errors_witness :
    pathRewriteToRoot guardedFS ["index.html"] none ⟨"/private"⟩ = "/private" :=
  (C4_other_errors guardedFS ["index.html"] none ⟨"/private"⟩).1 "" (by decide)
    FsError.ErrPermission (by decide) (by decide) (by decide)

/-- C5: every name the hook passes to the existence check is a valid path;
and whatever the tree and the index names, on the path `../secret` (from the
request or from a custom rewrite) the hook checks nothing and returns `/`. -/
theorem C5_traversal_rejection (fileSystem : FS) (IndexNames : List String)
    (orig : Option PathRewriteFunc) (ctx : RequestCtx) :
    (∀ name ∈ statCalls fileSystem IndexNames orig ctx, ValidPath name = true) ∧
    pathRewriteToRoot fileSystem IndexNames none ⟨"../secret"⟩ = "/" ∧
    statCalls fileSystem IndexNames none ⟨"../secret"⟩ = [] ∧
    pathRewriteToRoot fileSystem IndexNames (some fun _ => "../secret") ctx = "/" ∧
    statCalls fileSystem IndexNames (some fun _ => "../secret") ctx = [] := by
  have hinv : ∀ index ∈ "" :: IndexNames,
      ValidPath (resultingPath "../secret" index) = false := fun index _ =>
    resultingPath_dotdot_invalid "../secret" index ⟨"/secret".data, rfl, Or.inr rfl⟩
  have hloop := rewriteLoop_all_invalid fileSystem "../secret" ("" :: IndexNames) hinv
  refine ⟨statCalls_valid fileSystem IndexNames orig ctx, ?_, ?_, ?_, ?_⟩ <;>
    simp only [pathRewriteToRoot, statCalls, pathRewriteToRootTrace, startPath, hloop]

/-- C10 (as stated, refuted): the tree has a root (which answers even under
the empty name) and no index file, and a custom rewrite returns the empty
path; its first candidate is the empty string, which is not checked; the hook
returns `/`, not the empty path. -/
theorem C10_empty_candidate_counterexample :
    resultingPath (startPath (some fun _ => "") ⟨"/"⟩) "" = "" ∧
    rootOnlyFS.stat "" = none ∧ rootOnlyFS.stat "." = none ∧
    rootOnlyFS.stat "index.html" = some FsError.ErrNotExist ∧
    statCalls rootOnlyFS ["index.html"] (some fun _ => "") ⟨"/"⟩ = ["index.html"] ∧
    pathRewriteToRoot rootOnlyFS ["index.html"] (some fun _ => "") ⟨"/"⟩ = "/" ∧
    pathRewriteToRoot rootOnlyFS ["index.html"] (some fun _ => "") ⟨"/"⟩ ≠ "" := by
  refine ⟨by decide, by decide, by decide, by decide, by decide, by decide, by decide⟩

/-- C10 (amended): a candidate that is the empty string after the leading `/`
is trimmed is skipped as an invalid path and never existence-checked; so when
the first candidate of a path is empty and every valid candidate built from
an index name reports "not found", the hook returns the fallback `/`. -/
theorem C10_empty_candidate (fileSystem : FS) (IndexNames : List String)
    (orig : Option PathRewriteFunc) (ctx : RequestCtx)
    (hempty : resultingPath (startPath orig ctx) "" = "") :
    "" ∉ statCalls fileSystem IndexNames orig ctx ∧
    ((∀ index ∈ IndexNames,
        ValidPath (resultingPath (startPath orig ctx) index) = true →
        fileSystem.stat (resultingPath (startPath orig ctx) index) =
          some FsError.ErrNotExist) →
      pathRewriteToRoot fileSystem IndexNames orig ctx = "/") := by
  constructor
  · intro hmem
    have := statCalls_valid fileSystem IndexNames orig ctx "" hmem
    exact absurd this (by decide)
  · intro hmiss
    apply pathRewriteToRoot_of_miss
    intro index hindex
    rcases List.mem_cons.1 hindex with h | h
    · subst h
      rw [hempty]
      have hv : ValidPath "" = false := by decide
      simp [isMiss, hv]
    · unfold isMiss
      by_cases hv : ValidPath (resultingPath (startPath orig ctx) index) = true
      · simp [hv, hmiss index h hv, errorsIs]
      · simp [hv]

theorem C10_empty_candidate_witness :
    "" ∉ statCalls rootOnlyFS ["index.html"] (some fun _ => "") ⟨"/"⟩ ∧
    pathRewriteToRoot rootOnlyFS ["index.html"] (some fun _ => "") ⟨"/"⟩ = "/" :=
  ⟨(C10_empty_candidate rootOnlyFS ["index.html"] (some fun _ => "") ⟨"/"⟩ (by decide)).1,
    (C10_empty_candidate rootOnlyFS ["index.html"] (some fun _ => "") ⟨"/"⟩ (by decide)).2
      (by decide)⟩

/-! ## Claims on the validation of the configuration -/

theorem validateStruct_eq_nil (env : ValidatorEnv) (cfg : Config) :
    validateStruct env cfg = [] ↔
      (checkAddr env cfg = true ∧ checkServer cfg = true ∧ checkDir env cfg = true ∧
        checkFileSystem cfg = true ∧ checkTempDir env cfg = true ∧
        checkTempFilesPerm cfg = true ∧ checkCompressBrotli cfg = true ∧
        checkCacheDuration cfg = true) := by
  unfold validateStruct
  cases checkAddr env cfg <;> cases checkServer cfg <;> cases checkDir env cfg <;>
    cases checkFileSystem cfg <;> cases checkTempDir env cfg <;>
    cases checkTempFilesPerm cfg <;> cases checkCompressBrotli cfg <;>
    cases checkCacheDuration cfg <;> simp

/-- C7 (as stated, refuted): with `Dir` an existing directory and `FileSystem`
set, on top of the defaults of `Serve`, the validation passes. -/
theorem C7_content_source_counterexample :
    (configure exampleEnv "localhost:8080"
      [WithDir "public", WithFS (some scenarioTree)]).toOption.map
        (fun cfg => (cfg.Dir, cfg.FileSystem.isSome, validateStruct exampleEnv cfg)) =
      some ("public", true, []) := by
  rfl

/-- C7 (amended): for every configuration that satisfies the other rules, the
validation fails when neither `Dir` nor `FileSystem` is set and passes when at
least one of them is set, also when both are. -/
theorem C7_content_source (env : ValidatorEnv) (cfg : Config)
    (hAddr : checkAddr env cfg = true) (hServer : checkServer cfg = true)
    (hDir : checkDir env cfg = true) (hTempDir : checkTempDir env cfg = true)
    (hPerm : checkTempFilesPerm cfg = true) (hBrotli : checkCompressBrotli cfg = true)
    (hCache : checkCacheDuration cfg = true) :
    (validateStruct env cfg = [] ↔ (cfg.Dir ≠ "" ∨ cfg.FileSystem.isSome = true)) ∧
    (cfg.Dir = "" ∧ cfg.FileSystem.isSome = false → validateStruct env cfg = ["FileSystem"]) := by
  constructor
  · rw [validateStruct_eq_nil]
    simp only [hAddr, hServer, hDir, hTempDir, hPerm, hBrotli, hCache, true_and, and_true]
    unfold checkFileSystem requiredWithout
    by_cases hd : cfg.Dir = "" <;> simp [hd]
  · rintro ⟨hd, hf⟩
    have : checkFileSystem cfg = false := by
      simp [checkFileSystem, requiredWithout, hd, hf]
    simp [validateStruct, hAddr, hServer, hDir, hTempDir, hPerm, hBrotli, hCache, this]

theorem C7_content_source_witness :
    validateStruct exampleEnv { defaultConfig "localhost:8080" with Dir := "public" } = [] :=
  (C7_content_source exampleEnv { defaultConfig "localhost:8080" with Dir := "public" }
    (by decide) (by decide) (by decide) (by decide) (by decide) (by decide) (by decide)).1.2
    (Or.inl (by decide))

/-- C8 (the code at the failing input): the configuration that
`WithCompressBrotli` makes of the defaults of `Serve` (both flags set) fails
the rule on `CompressBrotli`, and a configuration with `CompressBrotli` set
and `Compress` unset passes it. -/
theorem C8_brotli_rule_failing_input :
    (configure exampleEnv "localhost:8080"
      [WithFS (some scenarioTree), WithCompressBrotli]).toOption.isSome = false ∧
    (applyOptions (defaultConfig "localhost:8080")
      [WithFS (some scenarioTree), WithCompressBrotli]).toOption.map
        (fun cfg => (cfg.Compress, cfg.CompressBrotli, validateStruct exampleEnv cfg)) =
      some (true, true, ["CompressBrotli"]) ∧
    validateStruct exampleEnv
      { defaultConfig "localhost:8080" with
        FileSystem := some scenarioTree, Compress := false, CompressBrotli := true } = [] := by
  refine ⟨by rfl, by rfl, by rfl⟩

/-! ## Claim on the materialization -/

/-- The staging root of the examples. -/
theorem stagingRoot_fresh : ∀ t : List String, t ≠ [] → freshDisk (["tmp", "esfs-1"] ++ t) = none := by
  intro t ht
  cases t with
  | nil => exact absurd rfl ht
  | cons a t => simp [freshDisk]

/-- C9 (as stated, refuted): with `TempFilesPerm` 0o777 and a umask of 0o022
the scenario tree is copied without error into the fresh staging root, and
the permission bits of the copy of `index.html` are 0o755, not the configured
0o777. -/
theorem C9_materialization_counterexample :
    (copyFSToDisk (noFaults 0o022) { defaultConfig "localhost:8080" with TempFilesPerm := 0o777 }
      scenarioVTree ["tmp", "esfs-1"] freshDisk).err = none ∧
    (scenarioVTree.lookup ["index.html"]).map VNode.IsDir = some false ∧
    (copyFSToDisk (noFaults 0o022) { defaultConfig "localhost:8080" with TempFilesPerm := 0o777 }
      scenarioVTree ["tmp", "esfs-1"] freshDisk).disk ["tmp", "esfs-1", "index.html"] =
      some (DNode.file 0o755 [60, 104, 116, 109, 108, 62]) ∧
    (0o755 : Nat) ≠ 0o777 := by
  refine ⟨by decide, by decide, by decide, by decide⟩

/-- C9 (amended): for every tree without a repeated name and every fresh,
empty staging root, if `copyFSToDisk` returns no error then the staging root
has a directory at the path of every directory of the tree and, at the path
of every file, a file with the same content whose permission bits are
`TempFilesPerm` with the bits of the umask cleared (`TempFilesPerm` itself
when the umask clears none of them); and in every case the walk stops at the
first operation that fails and returns its error. -/
theorem C9_materialization (faults : Faults) (cfg : Config) (fileSystem : VNode)
    (rootDir : List String) (disk : Disk)
    (hdist : fileSystem.distinctNames = true)
    (hroot : ∃ m, disk rootDir = some (DNode.dir m))
    (hfresh : ∀ t, t ≠ [] → disk (rootDir ++ t) = none) :
    ((copyFSToDisk faults cfg fileSystem rootDir disk).err = none →
      (∀ p entries, fileSystem.lookup p = some (VNode.dir entries) →
        ∃ m, (copyFSToDisk faults cfg fileSystem rootDir disk).disk (rootDir ++ p) =
          some (DNode.dir m)) ∧
      (∀ p content, fileSystem.lookup p = some (VNode.file content) →
        (copyFSToDisk faults cfg fileSystem rootDir disk).disk (rootDir ++ p) =
          some (DNode.file (createMode faults.umask cfg.TempFilesPerm) content))) ∧
    (cfg.TempFilesPerm < 512 → cfg.TempFilesPerm &&& faults.umask = 0 →
      createMode faults.umask cfg.TempFilesPerm = cfg.TempFilesPerm) ∧
    stopsAtFirstError (copyFSToDisk faults cfg fileSystem rootDir disk).err
      (copyFSToDisk faults cfg fileSystem rootDir disk).steps := by
  refine ⟨fun herr => ⟨?_, ?_⟩, createMode_eq _ _, copyFSToDisk_stops _ _ _ _ _⟩
  · intro p entries hl
    exact copyFSToDisk_mirrors faults cfg fileSystem rootDir disk hdist hroot hfresh herr p _ hl
  · intro p content hl
    exact copyFSToDisk_mirrors faults cfg fileSystem rootDir disk hdist hroot hfresh herr p _ hl

theorem C9_materialization_witness :
    (copyFSToDisk (noFaults 0o022) (defaultConfig "localhost:8080") scenarioVTree
      ["tmp", "esfs-1"] freshDisk).disk (["tmp", "esfs-1"] ++ ["about", "index.html"]) =
      some (DNode.file (createMode 0o022 0o700) [60, 97, 98, 111, 117, 116, 62]) ∧
    createMode 0o022 0o700 = 0o700 :=
  ⟨(C9_materialization (noFaults 0o022) (defaultConfig "localhost:8080") scenarioVTree
      ["tmp", "esfs-1"] freshDisk (by decide) ⟨0o700, by decide⟩ stagingRoot_fresh).1
      (by decide) |>.2 ["about", "index.html"] _ rfl,
    (C9_materialization (noFaults 0o022) (defaultConfig "localhost:8080") scenarioVTree
      ["tmp", "esfs-1"] freshDisk (by decide) ⟨0o700, by decide⟩ stagingRoot_fresh).2.1
      (by decide) (by decide)⟩

/-! ## Claim on the cleanup of the staging root -/

/-- C6 (the code at the failing inputs): when a file of the virtual file
system cannot be opened, `Serve` returns the error of `copyFSToDisk` and the
staging root it created is still on the disk, `os.RemoveAll` not having been
called; the same holds when the server cannot start in graceful mode and the
process exits with code 1.  On the two other exit paths (start failure
without graceful mode, shutdown on a signal) the staging root is removed, by
one call of `os.RemoveAll`. -/
theorem C6_cleanup_failing_inputs :
    ((Serve (exampleServeEnv unreadableAbout (ServerRun.signalled none)) "localhost:8080"
        [WithFS (some scenarioTree)] startWorld).1 =
        Outcome.returned (some (ServeError.copyFSToDisk FsError.ErrPermission)) ∧
      (Serve (exampleServeEnv unreadableAbout (ServerRun.signalled none)) "localhost:8080"
        [WithFS (some scenarioTree)] startWorld).2.disk ["tmp", "esfs-1"] =
        some (DNode.dir 0o700) ∧
      (Serve (exampleServeEnv unreadableAbout (ServerRun.signalled none)) "localhost:8080"
        [WithFS (some scenarioTree)] startWorld).2.removed = []) ∧
    ((Serve (exampleServeEnv (noFaults 0o022) (ServerRun.startFails (FsError.other "bind")))
        "localhost:8080" [WithFS (some scenarioTree), WithGracefulShutdown] startWorld).1 =
        Outcome.exited 1 ∧
      (Serve (exampleServeEnv (noFaults 0o022) (ServerRun.startFails (FsError.other "bind")))
        "localhost:8080" [WithFS (some scenarioTree), WithGracefulShutdown]
        startWorld).2.disk ["tmp", "esfs-1"] = some (DNode.dir 0o700) ∧
      (Serve (exampleServeEnv (noFaults 0o022) (ServerRun.startFails (FsError.other "bind")))
        "localhost:8080" [WithFS (some scenarioTree), WithGracefulShutdown]
        startWorld).2.removed = []) ∧
    ((Serve (exampleServeEnv (noFaults 0o022) (ServerRun.startFails (FsError.other "bind")))
        "localhost:8080" [WithFS (some scenarioTree)] startWorld).1 =
        Outcome.returned (some (ServeError.server (FsError.other "bind"))) ∧
      (Serve (exampleServeEnv (noFaults 0o022) (ServerRun.startFails (FsError.other "bind")))
        "localhost:8080" [WithFS (some scenarioTree)] startWorld).2.disk ["tmp", "esfs-1"] =
        none ∧
      (Serve (exampleServeEnv (noFaults 0o022) (ServerRun.startFails (FsError.other "bind")))
        "localhost:8080" [WithFS (some scenarioTree)] startWorld).2.removed =
        [["tmp", "esfs-1"]]) ∧
    ((Serve (exampleServeEnv (noFaults 0o022) (ServerRun.signalled none)) "localhost:8080"
        [WithFS (some scenarioTree), WithGracefulShutdown] startWorld).1 =
        Outcome.returned none ∧
      (Serve (exampleServeEnv (noFaults 0o022) (ServerRun.signalled none)) "localhost:8080"
        [WithFS (some scenarioTree), WithGracefulShutdown] startWorld).2.disk
        ["tmp", "esfs-1"] = none ∧
      (Serve (exampleServeEnv (noFaults 0o022) (ServerRun.signalled none)) "localhost:8080"
        [WithFS (some scenarioTree), WithGracefulShutdown] startWorld).2.removed =
        [["tmp", "esfs-1"]]) := by
  refine ⟨⟨by decide, by decide, by decide⟩, ⟨by decide, by decide, by decide⟩,
    ⟨by decide, by decide, by decide⟩, ⟨by decide, by decide, by decide⟩⟩

end Esfs
